import Mathlib

/-! MPGeometry: the terrain-tile draw path of the MP terrain engine

A shallow embedding of `src/osgEarthDrivers/engine_mp/MPGeometry.cpp`:

* `reorder` / `syncLayers`: the map-frame synchronisation at the head of
  `MPGeometry::drawPrimitivesImplementation` (lines 70-91);
* `layerBody` / `layerLoop` / `drawPrimitivesImplementation`: the uniform
  resolution, the per-layer loop and the no-texture fallback (lines 93-247),
  as a function from the geometry and the render state to the sequence of
  GL calls it issues;
* `validate`: `MPGeometry::validate` (lines 275-313);
* `releaseGLObjects`, `resizeGLObjectBuffers` (lines 316-340).

Floats are IEEE-754 binary32 values given by their bit fields; only the
comparisons the source performs on them are modelled.  The `unsigned`
counter `layersDrawn` counts elements of an in-memory vector and is a `Nat`.
-/

namespace MPTerrainEngine

/-! ## Floats -/

/-- An IEEE-754 binary32 value (`float`, `GLfloat`), by its sign bit, its 8-bit
biased exponent and its 23-bit mantissa. -/
structure GLfloat where
  sign : Bool
  exponent : Fin 256
  mantissa : Fin 8388608
deriving DecidableEq

namespace GLfloat

/-- A NaN has all exponent bits set and a non-zero mantissa. -/
def isNaN (x : GLfloat) : Bool :=
  x.exponent.val == 255 && x.mantissa.val != 0

/-- Order-preserving integer image of a float that is not a NaN: the
magnitude bits read as a number, negated when the sign bit is set.  Both
zeros map to 0. -/
def key (x : GLfloat) : Int :=
  if x.sign then -((x.exponent.val * 8388608 + x.mantissa.val : Nat) : Int)
  else ((x.exponent.val * 8388608 + x.mantissa.val : Nat) : Int)

/-- The C++ `x < y` on floats: false as soon as one side is a NaN. -/
def lt (x y : GLfloat) : Bool :=
  !x.isNaN && !y.isNaN && decide (x.key < y.key)

/-- The C++ `x > y` on floats. -/
def gt (x y : GLfloat) : Bool := lt y x

/-- The C++ `x <= y` on floats. -/
def le (x y : GLfloat) : Bool :=
  !x.isNaN && !y.isNaN && decide (x.key ≤ y.key)

/-- The C++ `x >= y` on floats. -/
def ge (x y : GLfloat) : Bool := le y x

/-- The C++ `x == y` on floats: a NaN equals nothing, `+0 == -0`. -/
def feq (x y : GLfloat) : Bool :=
  !x.isNaN && !y.isNaN && decide (x.key = y.key)

/-- The C++ `x != y` on floats. -/
def ne (x y : GLfloat) : Bool := !feq x y

/-- The literal `0.0f`. -/
def zero : GLfloat := ⟨false, 0, 0⟩
/-- The literal `1.0f`. -/
def one : GLfloat := ⟨false, 127, 0⟩
/-- The literal `-1.0f`. -/
def negOne : GLfloat := ⟨true, 127, 0⟩
/-- The literal `0.5f`. -/
def half : GLfloat := ⟨false, 126, 0⟩
/-- The literal `0.8f` (bits `0x3F4CCCCD`). -/
def pointEight : GLfloat := ⟨false, 126, 5033165⟩

end GLfloat

/-! ## Data model -/

/-- The type `osgEarth::UID` is an `int`. -/
abbrev UID := Int

/-- What the draw path reads from an `osgEarth::ImageLayer`: `getUID()`,
`getVisible()` and `getOpacity()`. -/
structure ImageLayer where
  uid : UID
  visible : Bool
  opacity : GLfloat
deriving DecidableEq

/-- Handle of an `osg::Texture`. -/
abbrev Texture := Nat

/-- Handle of an `osg::RefMatrixf`. -/
abbrev RefMatrixf := Nat

/-- Modelled from the spec: the record `MPGeometry::Layer`, declared in the
header `MPGeometry`, which is not part of the sources.  It associates a layer
id with the image layer, a nullable texture and a nullable texture matrix;
its `operator==(UID)`, used by `std::find`, compares the layer id only. -/
structure Layer where
  layerID : UID
  imageLayer : ImageLayer
  tex : Option Texture
  texMatrix : Option RefMatrixf
deriving DecidableEq

/-- What one draw call observes of its `MapFrame _frame`: the answer of the
unlocked `needsSync()` of line 70, the answer of the `needsSync()` repeated
under the lock on line 75, what `sync()` reports, and the `imageLayers()` of
the frame once synced. -/
structure MapFrame where
  needsSync : Bool
  needsSyncLocked : Bool
  sync : Bool
  imageLayers : List ImageLayer

/-- An indexed primitive set (`osg::DrawElements`): its GL mode and its
indices. -/
structure DrawElements where
  mode : Nat
  indices : List Nat
deriving DecidableEq

/-- The GL enumerant `GL_TRIANGLES`. -/
def GL_TRIANGLES : Nat := 4

/-- The six uniforms whose name ids the constructor establishes
(lines 52-58). -/
inductive UniformName where
  | tileKey
  | birthTime
  | uid
  | order
  | opacity
  | texMatrix
deriving DecidableEq

/-- An `osg::Program::PerContextProgram`: `getUniformLocation` gives a
non-negative location, or -1 for a uniform the program does not have. -/
structure PerContextProgram where
  getUniformLocation : UniformName → Int

/-- The `osg::GL2Extensions` interface of a graphics context. -/
structure GL2Extensions where
  contextID : Nat
deriving DecidableEq

/-- The value of `_tileKeyValue`, an `osg::Vec4f`. -/
structure Vec4f where
  x : GLfloat
  y : GLfloat
  z : GLfloat
  w : GLfloat
deriving DecidableEq

/-- The three warnings of the draw path (`OE_WARN`). -/
inductive Warning where
  | noTexture
  | noTexMatrix
  | nullPrimset
deriving DecidableEq

/-- One observable call of the draw path.  A uniform upload records the
uniform the source statement writes, the location passed and the value. -/
inductive GLCall where
  | glUniform4fv (u : UniformName) (location : Int) (v : Vec4f)
  | glUniform1f (u : UniformName) (location : Int) (v : GLfloat)
  | glUniform1i (u : UniformName) (location : Int) (v : Int)
  | glUniformMatrix4fv (u : UniformName) (location : Int) (m : RefMatrixf)
  | setActiveTextureUnit (unit : Nat)
  | texApply (t : Texture)
  | texRelease (t : Texture)
  | draw (p : DrawElements)
  | warn (w : Warning)
deriving DecidableEq

/-- Modelled from the spec: the per-context record `PerContextData` of the
header `MPGeometry`, which is not part of the sources: a birth time. -/
structure PerContextData where
  birthTime : GLfloat
deriving DecidableEq

/-- Modelled from the spec: a fresh per-context slot holds the sentinel
"unset", a negative birth time (`-1.0f`). -/
def PerContextData.unset : PerContextData := ⟨GLfloat.negOne⟩

/-- What the draw path reads from `osg::State`: the context id, the last
applied program object (null when none is applied) and the frame stamp
(null, or its reference time as converted to `float` on line 144). -/
structure OsgState where
  contextID : Nat
  lastAppliedProgramObject : Option PerContextProgram
  frameStamp : Option GLfloat

/-- The members of an `MPGeometry` the draw path uses. -/
structure MPGeometry where
  supportsGLSL : Bool
  tileKeyValue : Vec4f
  layers : List Layer
  pcd : List PerContextData
  primitives : List (Option DrawElements)

/-! ## Frame synchronisation (lines 70-91) -/

/-- The call `std::find(_layers.begin(), _layers.end(), uid)`: the first
record whose layer id is `uid`, if any. -/
def findLayer (layers : List Layer) (uid : UID) : Option Layer :=
  layers.find? (fun j => j.layerID == uid)

/-- Lines 80-89: walk the frame's image layers and collect, in that order,
the tile's record found for each one. -/
def reorder (imageLayers : List ImageLayer) (layers : List Layer) : List Layer :=
  imageLayers.foldl
    (fun reordered i =>
      match findLayer layers i.uid with
      | some j => reordered ++ [j]
      | none => reordered)
    []

/-- Lines 70-91: the tile list after the synchronisation step. -/
def syncLayers (frame : MapFrame) (layers : List Layer) : List Layer :=
  if frame.needsSync then
    if frame.needsSyncLocked && frame.sync then
      reorder frame.imageLayers layers
    else layers
  else layers

/-! ## Runs: a sequence of GL calls that may end in a null dereference -/

/-- The calls a piece of the draw path issues, and whether it ended by
calling through the null `ext` pointer (after which nothing more runs). -/
structure Run where
  calls : List GLCall
  crashed : Bool
deriving DecidableEq

/-- A piece of code that issues no call. -/
def Run.skip : Run := ⟨[], false⟩

/-- A single call that does not go through `ext`. -/
def Run.emit (c : GLCall) : Run := ⟨[c], false⟩

/-- Sequential composition: `b` runs only when `a` did not crash. -/
def Run.seq (a b : Run) : Run :=
  if a.crashed then a else ⟨a.calls ++ b.calls, b.crashed⟩

/-- A call `ext->f(...)`: the call is issued when `ext` is a valid pointer,
and the run crashes when `ext` is null. -/
def extCall (ext : Option GL2Extensions) (c : GLCall) : Run :=
  match ext with
  | some _ => ⟨[c], false⟩
  | none => ⟨[], true⟩

/-! ## Uniform resolution (lines 96-127) -/

/-- The six locations of lines 110-115. -/
structure Locations where
  tileKey : Int
  birthTime : Int
  opacity : Int
  uid : Int
  order : Int
  texMatrix : Int
deriving DecidableEq

/-- Lines 101-106: `ext` is obtained only when GLSL is supported. -/
def getExt (g : MPGeometry) (state : OsgState) : Option GL2Extensions :=
  if g.supportsGLSL then some ⟨state.contextID⟩ else none

/-- Lines 101-106: `pcp` is the last applied program object, read only when
GLSL is supported; it stays null otherwise. -/
def getPcp (g : MPGeometry) (state : OsgState) : Option PerContextProgram :=
  if g.supportsGLSL then state.lastAppliedProgramObject else none

/-- Lines 110-127: every location starts at -1 and is queried from the
program when there is one. -/
def resolveLocations (pcp : Option PerContextProgram) : Locations :=
  match pcp with
  | some p =>
    ⟨p.getUniformLocation .tileKey, p.getUniformLocation .birthTime,
     p.getUniformLocation .opacity, p.getUniformLocation .uid,
     p.getUniformLocation .order, p.getUniformLocation .texMatrix⟩
  | none => ⟨-1, -1, -1, -1, -1, -1⟩

/-- The location resolved for a uniform. -/
def Locations.get (loc : Locations) : UniformName → Int
  | .tileKey => loc.tileKey
  | .birthTime => loc.birthTime
  | .opacity => loc.opacity
  | .uid => loc.uid
  | .order => loc.order
  | .texMatrix => loc.texMatrix

/-! ## Tile key and birth time (lines 129-148) -/

/-- Lines 130-133: the tile key is uploaded when its location is found. -/
def applyTileKey (ext : Option GL2Extensions) (loc : Locations) (tileKeyValue : Vec4f) : Run :=
  if loc.tileKey ≥ 0 then extCall ext (.glUniform4fv .tileKey loc.tileKey tileKeyValue)
  else Run.skip

/-- Modelled from the spec: `_pcd` is an `osg::buffered_object` declared in
the header, which is not part of the sources; indexing it at a context id
beyond its size first grows it with fresh (unset) slots. -/
def pcdGrow (pcd : List PerContextData) (size : Nat) : List PerContextData :=
  pcd ++ List.replicate (size - pcd.length) PerContextData.unset

/-- The slot `_pcd[contextID]`, after the growth the indexing performs. -/
def pcdAt (pcd : List PerContextData) (contextID : Nat) : PerContextData :=
  ((pcdGrow pcd (contextID + 1)).get? contextID).getD PerContextData.unset

/-- Lines 139-146: a slot whose birth time is negative takes the reference
time of the frame stamp, when there is a stamp. -/
def latchBirthTime (slot : PerContextData) (frameStamp : Option GLfloat) : PerContextData :=
  if slot.birthTime.lt GLfloat.zero then
    match frameStamp with
    | some t => ⟨t⟩
    | none => slot
  else slot

/-- Lines 136-148: when the birth-time location is found, the slot of the
current context is latched and its birth time uploaded.  Gives the run and
the per-context array afterwards. -/
def applyBirthTime (ext : Option GL2Extensions) (loc : Locations) (state : OsgState)
    (pcd : List PerContextData) : Run × List PerContextData :=
  if loc.birthTime ≥ 0 then
    let slot := latchBirthTime (pcdAt pcd state.contextID) state.frameStamp
    (extCall ext (.glUniform1f .birthTime loc.birthTime slot.birthTime),
     (pcdGrow pcd (state.contextID + 1)).set state.contextID slot)
  else (Run.skip, pcd)

/-! ## The layer loop (lines 158-223) and the fallback (lines 225-247) -/

/-- Lines 207-218 and 235-246: every primitive set is drawn, a null entry is
warned about. -/
def drawPrimitiveSets (primitives : List (Option DrawElements)) : Run :=
  ⟨primitives.map (fun primitiveset =>
      match primitiveset with
      | some p => GLCall.draw p
      | none => GLCall.warn .nullPrimset), false⟩

/-- The loop variables carried from one layer to the next. -/
structure LoopVars where
  prevOpacity : GLfloat
  layersDrawn : Nat
deriving DecidableEq

/-- Lines 186-191: whether the opacity of the layer is uploaded. -/
def uploadsOpacity (loc : Locations) (imageLayer : ImageLayer) (prevOpacity : GLfloat) : Bool :=
  decide (loc.opacity ≥ 0) && imageLayer.opacity.ne prevOpacity

/-- Lines 181-221: the block under `if ( pcp )`. -/
def applyUniformsAndDraw (ext : Option GL2Extensions) (loc : Locations)
    (primitives : List (Option DrawElements)) (imageLayer : ImageLayer) (v : LoopVars) :
    Run × LoopVars :=
  let upload := uploadsOpacity loc imageLayer v.prevOpacity
  let opacityRun :=
    if upload then extCall ext (.glUniform1f .opacity loc.opacity imageLayer.opacity)
    else Run.skip
  let uidRun :=
    if loc.uid ≥ 0 then extCall ext (.glUniform1i .uid loc.uid imageLayer.uid)
    else Run.skip
  let orderRun :=
    if loc.order ≥ 0 then extCall ext (.glUniform1i .order loc.order (v.layersDrawn : Int))
    else Run.skip
  (opacityRun.seq (uidRun.seq (orderRun.seq (drawPrimitiveSets primitives))),
   ⟨if upload then imageLayer.opacity else v.prevOpacity, v.layersDrawn + 1⟩)

/-- Lines 162-222: the body of the loop for one layer record. -/
def layerBody (ext : Option GL2Extensions) (pcp : Option PerContextProgram) (loc : Locations)
    (primitives : List (Option DrawElements)) (i : Layer) (v : LoopVars) : Run × LoopVars :=
  let imageLayer := i.imageLayer
  if imageLayer.visible && imageLayer.opacity.gt GLfloat.zero then
    let unitRun := Run.emit (.setActiveTextureUnit 0)
    let texRun :=
      match i.tex with
      | some t => Run.emit (.texApply t)
      | none => Run.emit (.warn .noTexture)
    let texMatrixRun :=
      match i.texMatrix with
      | some m => extCall ext (.glUniformMatrix4fv .texMatrix loc.texMatrix m)
      | none => Run.emit (.warn .noTexMatrix)
    match pcp with
    | some _ =>
      let r := applyUniformsAndDraw ext loc primitives imageLayer v
      (unitRun.seq (texRun.seq (texMatrixRun.seq r.1)), r.2)
    | none => (unitRun.seq (texRun.seq texMatrixRun), v)
  else (Run.skip, v)

/-- Lines 160-223: the loop over the tile list. -/
def layerLoop (ext : Option GL2Extensions) (pcp : Option PerContextProgram) (loc : Locations)
    (primitives : List (Option DrawElements)) : List Layer → LoopVars → Run × LoopVars
  | [], v => (Run.skip, v)
  | i :: rest, v =>
    let b := layerBody ext pcp loc primitives i v
    let r := layerLoop ext pcp loc primitives rest b.2
    (b.1.seq r.1, r.2)

/-- Lines 226-247: the pass drawn when no layer was drawn. -/
def fallback (ext : Option GL2Extensions) (loc : Locations)
    (primitives : List (Option DrawElements)) (layersDrawn : Nat) : Run :=
  if layersDrawn = 0 then
    let opacityRun :=
      if loc.opacity ≥ 0 then extCall ext (.glUniform1f .opacity loc.opacity GLfloat.one)
      else Run.skip
    let uidRun :=
      if loc.uid ≥ 0 then extCall ext (.glUniform1i .uid loc.uid (-1)) else Run.skip
    let orderRun :=
      if loc.order ≥ 0 then extCall ext (.glUniform1i .order loc.order 0) else Run.skip
    opacityRun.seq (uidRun.seq (orderRun.seq (drawPrimitiveSets primitives)))
  else Run.skip

/-- The loop variables at loop entry: `prevOpacity = -1.0f` (line 158) and
`layersDrawn = 0` (line 93). -/
def LoopVars.init : LoopVars := ⟨GLfloat.negOne, 0⟩

/-- What a draw call leaves behind: the tile list and the per-context array
of the geometry, the calls issued, and whether it crashed. -/
structure DrawResult where
  layers : List Layer
  pcd : List PerContextData
  calls : List GLCall
  crashed : Bool

/-- The method `MPGeometry::drawPrimitivesImplementation` (lines 66-248). -/
def drawPrimitivesImplementation (g : MPGeometry) (frame : MapFrame) (state : OsgState) :
    DrawResult :=
  let layers := syncLayers frame g.layers
  let ext := getExt g state
  let pcp := getPcp g state
  let loc := resolveLocations pcp
  let tileKeyRun := applyTileKey ext loc g.tileKeyValue
  let birth := applyBirthTime ext loc state g.pcd
  let loop := layerLoop ext pcp loc g.primitives layers LoopVars.init
  let run := tileKeyRun.seq (birth.1.seq (loop.1.seq
    (fallback ext loc g.primitives loop.2.layersDrawn)))
  ⟨layers, if tileKeyRun.crashed then g.pcd else birth.2, run.calls, run.crashed⟩

/-! ## Validation (lines 275-313) -/

/-- The call `deus->resize(n)` with `n` at most the size: the first `n`
indices are kept. -/
def DrawElements.resize (de : DrawElements) (n : Nat) : DrawElements :=
  ⟨de.mode, de.indices.take n⟩

/-- Lines 301-310: whether the inner loop meets an index that is not below
`numVerts`. -/
def hasIndexOutOfBounds (numVerts : Nat) (de : DrawElements) : Bool :=
  de.indices.any (fun index => decide (index ≥ numVerts))

/-- Lines 280-312: the loop of `validate`, at the point where the primitive
sets `visited` (as the loop left them) precede position `i` and `rest` are
the sets from position `i` on.  Clearing `_primitives` ends the loop, since
its size is then zero. -/
def validateLoop (numVerts : Nat) : List DrawElements → List DrawElements → List DrawElements
  | visited, [] => visited
  | visited, de :: rest =>
    if de.mode ≠ GL_TRIANGLES then
      []
    else if de.indices.length % 3 ≠ 0 then
      let extra := de.indices.length % 3
      validateLoop numVerts (visited ++ [de.resize (de.indices.length - extra)]) rest
    else if hasIndexOutOfBounds numVerts de then
      []
    else
      validateLoop numVerts (visited ++ [de]) rest

/-- The method `MPGeometry::validate` (lines 275-313), on the vertex count
of the vertex array and the primitive sets; gives the primitive sets
afterwards. -/
def validate (numVerts : Nat) (primitives : List DrawElements) : List DrawElements :=
  validateLoop numVerts [] primitives

/-! ## Resource lifecycle (lines 316-340) -/

/-- The method `MPGeometry::resizeGLObjectBuffers` (lines 331-340). -/
def resizeGLObjectBuffers (g : MPGeometry) (maxSize : Nat) : MPGeometry :=
  if g.pcd.length < maxSize then
    ⟨g.supportsGLSL, g.tileKeyValue, g.layers, pcdGrow g.pcd maxSize, g.primitives⟩
  else g

/-! ## Observations on a sequence of calls -/

/-- Whether a call is an upload to the uniform `u`. -/
def GLCall.writes (u : UniformName) : GLCall → Bool
  | .glUniform4fv w _ _ => w == u
  | .glUniform1f w _ _ => w == u
  | .glUniform1i w _ _ => w == u
  | .glUniformMatrix4fv w _ _ => w == u
  | _ => false

/-- The values uploaded with `glUniform1f` to the uniform `u`, in order. -/
def uniform1fValues (u : UniformName) (calls : List GLCall) : List GLfloat :=
  calls.filterMap (fun c =>
    match c with
    | .glUniform1f w _ v => if w = u then some v else none
    | _ => none)

/-- The values uploaded with `glUniform1i` to the uniform `u`, in order. -/
def uniform1iValues (u : UniformName) (calls : List GLCall) : List Int :=
  calls.filterMap (fun c =>
    match c with
    | .glUniform1i w _ v => if w = u then some v else none
    | _ => none)

/-- The primitive sets drawn, in order. -/
def drawnPrimitives (calls : List GLCall) : List DrawElements :=
  calls.filterMap (fun c =>
    match c with
    | .draw p => some p
    | _ => none)

/-- The (layer uid, draw order) pairs uploaded: each upload of the uid
uniform that is directly followed by an upload of the order uniform. -/
def uidOrderPairs : List GLCall → List (Int × Int)
  | .glUniform1i .uid _ a :: .glUniform1i .order _ b :: rest =>
    (a, b) :: uidOrderPairs rest
  | _ :: rest => uidOrderPairs rest
  | [] => []

/-- The layers the loop draws: visible, with an opacity above zero
(line 163). -/
def Layer.isDrawn (i : Layer) : Bool :=
  i.imageLayer.visible && i.imageLayer.opacity.gt GLfloat.zero

/-! ## The calls of one drawn layer, in closed form -/

/-- The layers of a tile list that the loop draws, in list order. -/
def drawnLayers (layers : List Layer) : List Layer :=
  layers.filter Layer.isDrawn

/-- The calls of lines 166-178 for one layer, when `ext` is a valid
pointer. -/
def bindCalls (loc : Locations) (i : Layer) : List GLCall :=
  [GLCall.setActiveTextureUnit 0,
   match i.tex with
   | some t => GLCall.texApply t
   | none => GLCall.warn .noTexture,
   match i.texMatrix with
   | some m => GLCall.glUniformMatrix4fv .texMatrix loc.texMatrix m
   | none => GLCall.warn .noTexMatrix]

/-- The uploads of lines 184-204 for one layer, when `ext` is a valid
pointer. -/
def uniformCalls (loc : Locations) (imageLayer : ImageLayer) (v : LoopVars) : List GLCall :=
  (if uploadsOpacity loc imageLayer v.prevOpacity then
      [GLCall.glUniform1f .opacity loc.opacity imageLayer.opacity]
    else [])
  ++ (if loc.uid ≥ 0 then [GLCall.glUniform1i .uid loc.uid imageLayer.uid] else [])
  ++ (if loc.order ≥ 0 then [GLCall.glUniform1i .order loc.order (v.layersDrawn : Int)]
      else [])

/-- The loop variables after a layer was drawn under a bound program. -/
def nextVars (loc : Locations) (imageLayer : ImageLayer) (v : LoopVars) : LoopVars :=
  ⟨if uploadsOpacity loc imageLayer v.prevOpacity then imageLayer.opacity else v.prevOpacity,
   v.layersDrawn + 1⟩

/-- A run writes only found uniforms: each of its uploads to `u` is the
texture-matrix upload or has the location of `u` non-negative. -/
def Run.writesOnlyFound (u : UniformName) (loc : Locations) (r : Run) : Prop :=
  ∀ c ∈ r.calls, c.writes u = true → u = .texMatrix ∨ loc.get u ≥ 0

/-! ## Successive draws -/

/-- The geometry as a draw call leaves it: the tile list and the per-context
array are those of the draw result, the other members are not written. -/
def afterDraw (g : MPGeometry) (frame : MapFrame) (state : OsgState) : MPGeometry :=
  ⟨g.supportsGLSL, g.tileKeyValue, (drawPrimitivesImplementation g frame state).layers,
    (drawPrimitivesImplementation g frame state).pcd, g.primitives⟩

/-- The geometry after a sequence of draw calls, each with its own frame
answers and render state. -/
def afterDraws (g : MPGeometry) : List (MapFrame × OsgState) → MPGeometry
  | [] => g
  | d :: rest => afterDraws (afterDraw g d.1 d.2) rest

/-! ## The opacity in effect at a draw -/

/-- The opacity most recently uploaded after a sequence of calls, starting
from `current` (`none`: no opacity uploaded yet). -/
def opacityAfter (current : Option GLfloat) : List GLCall → Option GLfloat
  | [] => current
  | .glUniform1f .opacity _ v :: rest => opacityAfter (some v) rest
  | _ :: rest => opacityAfter current rest

/-- For every primitive draw of a sequence of calls, in order, the opacity
most recently uploaded at that moment. -/
def opacityAtDraws (current : Option GLfloat) : List GLCall → List (Option GLfloat)
  | [] => []
  | .glUniform1f .opacity _ v :: rest => opacityAtDraws (some v) rest
  | .draw _ :: rest => current :: opacityAtDraws current rest
  | _ :: rest => opacityAtDraws current rest

/-- The calls of the layer loop as they would be without the test of
line 187, under a valid `ext` and a bound program with the opacity uniform
found: the opacity is uploaded for every drawn layer. -/
def uncoalescedLoopCalls (loc : Locations) (primitives : List (Option DrawElements)) :
    List Layer → Nat → List GLCall
  | [], _ => []
  | i :: rest, layersDrawn =>
    if i.isDrawn then
      bindCalls loc i
        ++ [GLCall.glUniform1f .opacity loc.opacity i.imageLayer.opacity]
        ++ (if loc.uid ≥ 0 then [GLCall.glUniform1i .uid loc.uid i.imageLayer.uid] else [])
        ++ (if loc.order ≥ 0 then [GLCall.glUniform1i .order loc.order (layersDrawn : Int)]
            else [])
        ++ (drawPrimitiveSets primitives).calls
        ++ uncoalescedLoopCalls loc primitives rest (layersDrawn + 1)
    else uncoalescedLoopCalls loc primitives rest layersDrawn

/-- A run issues no uniform upload at all. -/
def Run.noUploads (r : Run) : Prop :=
  ∀ c ∈ r.calls, ∀ u, c.writes u = false

/-! ## Concrete inputs -/

/-- A program that has all six uniforms, at the locations 0 to 5. -/
def fullProgram : PerContextProgram :=
  ⟨fun u =>
    match u with
    | .tileKey => 0
    | .birthTime => 1
    | .opacity => 2
    | .uid => 3
    | .order => 4
    | .texMatrix => 5⟩

/-- A layer record with the given id, visibility and opacity, a texture and
a texture matrix. -/
def sampleLayer (uid : UID) (visible : Bool) (opacity : GLfloat) : Layer :=
  ⟨uid, ⟨uid, visible, opacity⟩, some 7, some 8⟩

/-- A geometry that supports GLSL, with the given tile list, one triangle
and one null primitive set. -/
def sampleGeometry (layers : List Layer) : MPGeometry :=
  ⟨true, ⟨GLfloat.zero, GLfloat.zero, GLfloat.zero, GLfloat.zero⟩, layers, [],
    [some ⟨GL_TRIANGLES, [0, 1, 2]⟩, none]⟩

/-- A render state of context 0 with `fullProgram` applied and a frame
stamp at reference time `1.0f`. -/
def sampleState : OsgState := ⟨0, some fullProgram, some GLfloat.one⟩

/-- A frame that needs no synchronisation. -/
def idleFrame : MapFrame := ⟨false, false, false, []⟩

/-- Five visible layers, with the ids 10 to 14 and the opacities
0.5, 0.5, 0.8, 0.8, 0.8. -/
def fiveLayers : List Layer :=
  [sampleLayer 10 true GLfloat.half, sampleLayer 11 true GLfloat.half,
   sampleLayer 12 true GLfloat.pointEight, sampleLayer 13 true GLfloat.pointEight,
   sampleLayer 14 true GLfloat.pointEight]

/-- A program that has every uniform but the texture matrix, whose location
is -1. -/
def noTexMatrixProgram : PerContextProgram :=
  ⟨fun u =>
    match u with
    | .tileKey => 0
    | .birthTime => 1
    | .opacity => 2
    | .uid => 3
    | .order => 4
    | .texMatrix => -1⟩

/-- A geometry built where GLSL is not supported, with the given tile list,
one triangle and one null primitive set. -/
def fixedFunctionGeometry (layers : List Layer) : MPGeometry :=
  ⟨false, ⟨GLfloat.zero, GLfloat.zero, GLfloat.zero, GLfloat.zero⟩, layers, [],
    [some ⟨GL_TRIANGLES, [0, 1, 2]⟩, none]⟩

/-! ## Floats: lemmas -/

namespace GLfloat

theorem gt_zero_iff (x : GLfloat) :
    x.gt zero = true ↔ x.isNaN = false ∧ 0 < x.key := by
  simp [gt, lt, zero, isNaN, key]
  intro _
  tauto

theorem sign_of_gt_zero {x : GLfloat} (h : x.gt zero = true) : x.sign = false := by
  have hk := ((gt_zero_iff x).1 h).2
  unfold key at hk
  cases hs : x.sign with
  | false => rfl
  | true =>
    rw [hs] at hk
    simp at hk
    omega

/-- On floats above zero the C++ `!=` is plain inequality of the values. -/
theorem ne_iff_of_gt_zero {x y : GLfloat} (hx : x.gt zero = true) (hy : y.gt zero = true) :
    x.ne y = true ↔ x ≠ y := by
  have sx := sign_of_gt_zero hx
  have sy := sign_of_gt_zero hy
  have nx := ((gt_zero_iff x).1 hx).1
  have ny := ((gt_zero_iff y).1 hy).1
  obtain ⟨xs, xe, xm⟩ := x
  obtain ⟨ys, ye, ym⟩ := y
  simp only at sx sy
  subst sx sy
  simp only [ne, feq, nx, ny, key, Bool.not_false, Bool.true_and, Bool.not_eq_true',
    decide_eq_false_iff_not, ne_eq, GLfloat.mk.injEq, true_and, Bool.false_eq_true, if_false]
  have h1 := xm.isLt
  have h2 := ym.isLt
  constructor
  · intro h hc
    apply h
    rw [hc.1, hc.2]
  · intro h hc
    apply h
    have : xe.val = ye.val ∧ xm.val = ym.val := by omega
    exact ⟨Fin.ext this.1, Fin.ext this.2⟩

/-- A float above zero differs from the initial `prevOpacity`, `-1.0f`. -/
theorem ne_negOne_of_gt_zero {x : GLfloat} (hx : x.gt zero = true) :
    x.ne negOne = true := by
  have sx := sign_of_gt_zero hx
  have h := (gt_zero_iff x).1 hx
  have hk : negOne.key < 0 := by decide
  simp only [ne, feq, h.1, Bool.not_false, Bool.true_and, Bool.not_eq_true',
    Bool.and_eq_false_imp, decide_eq_false_iff_not]
  intro _
  omega

/-- A float that is at most zero is not above zero. -/
theorem not_gt_zero_of_le_zero {x : GLfloat} (hx : x.le zero = true) :
    x.gt zero = false := by
  cases hg : x.gt zero with
  | false => rfl
  | true =>
    have h := ((gt_zero_iff x).1 hg).2
    simp [le, zero, key] at hx
    simp [key] at h
    have hx2 := hx.2
    split at h <;> split at hx2 <;> simp_all <;> omega

end GLfloat

/-! ## Frame synchronisation: lemmas -/

theorem foldl_reorder_eq (layers : List Layer) (imageLayers : List ImageLayer)
    (acc : List Layer) :
    imageLayers.foldl
      (fun reordered i =>
        match findLayer layers i.uid with
        | some j => reordered ++ [j]
        | none => reordered)
      acc
    = acc ++ imageLayers.filterMap (fun i => findLayer layers i.uid) := by
  induction imageLayers generalizing acc with
  | nil => simp
  | cons i rest ih =>
    simp only [List.foldl_cons, List.filterMap_cons]
    cases h : findLayer layers i.uid with
    | none => simpa using ih acc
    | some j => simpa using ih (acc ++ [j])

/-- The reordered list is the list of records found for the authoritative
ids, in the authoritative order. -/
theorem reorder_eq_filterMap (imageLayers : List ImageLayer) (layers : List Layer) :
    reorder imageLayers layers
      = imageLayers.filterMap (fun i => findLayer layers i.uid) := by
  unfold reorder
  simpa using foldl_reorder_eq layers imageLayers []

theorem findLayer_some {layers : List Layer} {uid : UID} {j : Layer}
    (h : findLayer layers uid = some j) : j ∈ layers ∧ j.layerID = uid := by
  unfold findLayer at h
  refine ⟨List.mem_of_find?_eq_some h, ?_⟩
  have := List.find?_some h
  simpa using this

theorem findLayer_none {layers : List Layer} {uid : UID}
    (h : findLayer layers uid = none) : uid ∉ layers.map (fun l => l.layerID) := by
  unfold findLayer at h
  rw [List.find?_eq_none] at h
  intro hmem
  rw [List.mem_map] at hmem
  obtain ⟨l, hl, rfl⟩ := hmem
  exact h l hl (by simp)

theorem findLayer_isSome_of_mem {layers : List Layer} {l : Layer} (h : l ∈ layers) :
    ∃ j, findLayer layers l.layerID = some j := by
  cases hf : findLayer layers l.layerID with
  | some j => exact ⟨j, rfl⟩
  | none => exact absurd (List.mem_map.2 ⟨l, h, rfl⟩) (findLayer_none hf)

theorem mem_reorder {imageLayers : List ImageLayer} {layers : List Layer} {r : Layer} :
    r ∈ reorder imageLayers layers
      ↔ ∃ i ∈ imageLayers, findLayer layers i.uid = some r := by
  rw [reorder_eq_filterMap, List.mem_filterMap]

/-- Looking an id up in the reordered list gives what the lookup in the
original list gives when the id is authoritative, and nothing otherwise. -/
theorem findLayer_reorder (imageLayers : List ImageLayer) (layers : List Layer) (uid : UID) :
    findLayer (reorder imageLayers layers) uid
      = if uid ∈ imageLayers.map (fun i => i.uid) then findLayer layers uid else none := by
  rw [reorder_eq_filterMap]
  induction imageLayers with
  | nil => simp [findLayer]
  | cons a rest ih =>
    simp only [List.filterMap_cons, List.map_cons, List.mem_cons]
    cases h : findLayer layers a.uid with
    | none =>
      simp only
      rw [ih]
      by_cases hu : uid = a.uid
      · subst hu
        simp [h]
      · by_cases hm : uid ∈ List.map (fun i => i.uid) rest
        · simp [hm]
        · simp [hm, hu]
    | some j =>
      simp only
      have hj := (findLayer_some h).2
      by_cases hu : uid = a.uid
      · subst hu
        simp [findLayer, hj, List.find?_cons] at h ⊢
        exact h.symm
      · have hne : ¬ j.layerID = uid := by
          rw [hj]
          exact fun e => hu e.symm
        have : findLayer (j :: List.filterMap (fun i => findLayer layers i.uid) rest) uid
            = findLayer (List.filterMap (fun i => findLayer layers i.uid) rest) uid := by
          simp [findLayer, List.find?_cons, hne]
        rw [this, ih]
        by_cases hm : uid ∈ List.map (fun i => i.uid) rest
        · simp [hm]
        · simp [hm, hu]

theorem reorder_idem (imageLayers : List ImageLayer) (layers : List Layer) :
    reorder imageLayers (reorder imageLayers layers) = reorder imageLayers layers := by
  rw [reorder_eq_filterMap imageLayers (reorder imageLayers layers),
    reorder_eq_filterMap imageLayers layers]
  apply List.filterMap_congr
  intro i hi
  rw [← reorder_eq_filterMap, findLayer_reorder]
  have : i.uid ∈ imageLayers.map (fun i => i.uid) := List.mem_map.2 ⟨i, hi, rfl⟩
  simp [this]

theorem map_layerID_reorder (imageLayers : List ImageLayer) (layers : List Layer) :
    (reorder imageLayers layers).map (fun l => l.layerID)
      = (imageLayers.map (fun i => i.uid)).filter
          (fun a => decide (a ∈ layers.map (fun l => l.layerID))) := by
  rw [reorder_eq_filterMap]
  induction imageLayers with
  | nil => simp
  | cons a rest ih =>
    simp only [List.filterMap_cons, List.map_cons, List.filter_cons]
    cases h : findLayer layers a.uid with
    | none =>
      have := findLayer_none h
      simp only [this, decide_False, Bool.false_eq_true, if_false]
      exact ih
    | some j =>
      obtain ⟨hj, hid⟩ := findLayer_some h
      have hm : a.uid ∈ layers.map (fun l => l.layerID) :=
        List.mem_map.2 ⟨j, hj, hid⟩
      simp only [hm, decide_True, if_true, List.map_cons, hid]
      rw [ih]

theorem syncLayers_of_changed {frame : MapFrame} (layers : List Layer)
    (h1 : frame.needsSync = true) (h2 : frame.needsSyncLocked = true)
    (h3 : frame.sync = true) :
    syncLayers frame layers = reorder frame.imageLayers layers := by
  simp [syncLayers, h1, h2, h3]

theorem draw_layers (g : MPGeometry) (frame : MapFrame) (state : OsgState) :
    (drawPrimitivesImplementation g frame state).layers = syncLayers frame g.layers := rfl

/-! ## The layer loop: lemmas -/

theorem Run.skip_seq (r : Run) : Run.skip.seq r = r := by
  simp [Run.skip, Run.seq]

theorem Run.seq_ok (a : List GLCall) (r : Run) :
    (Run.mk a false).seq r = ⟨a ++ r.calls, r.crashed⟩ := by
  simp [Run.seq]

theorem extCall_some (e : GL2Extensions) (c : GLCall) :
    extCall (some e) c = ⟨[c], false⟩ := rfl

theorem drawPrimitiveSets_crashed (primitives : List (Option DrawElements)) :
    (drawPrimitiveSets primitives).crashed = false := rfl

/-- With a valid `ext` and a bound program, the body of the loop issues the
calls of `bindCalls`, `uniformCalls` and the primitive draws for a drawn
layer, and nothing for a layer that is not drawn. -/
theorem layerBody_bound (e : GL2Extensions) (p : PerContextProgram) (loc : Locations)
    (primitives : List (Option DrawElements)) (i : Layer) (v : LoopVars) :
    layerBody (some e) (some p) loc primitives i v
      = if i.isDrawn then
          (⟨bindCalls loc i ++ uniformCalls loc i.imageLayer v
              ++ (drawPrimitiveSets primitives).calls, false⟩,
            nextVars loc i.imageLayer v)
        else (Run.skip, v) := by
  unfold layerBody Layer.isDrawn
  by_cases hd : (i.imageLayer.visible && i.imageLayer.opacity.gt GLfloat.zero) = true
  · simp only [hd, if_true]
    unfold applyUniformsAndDraw bindCalls uniformCalls nextVars
    cases i.tex <;> cases i.texMatrix <;>
      by_cases h1 : uploadsOpacity loc i.imageLayer v.prevOpacity = true <;>
      by_cases h2 : loc.uid ≥ 0 <;> by_cases h3 : loc.order ≥ 0 <;>
      simp [h1, h2, h3, Run.emit, Run.seq, Run.skip, extCall, drawPrimitiveSets]
  · simp only [hd]
    simp

theorem layerLoop_cons_skipped (ext : Option GL2Extensions) (pcp : Option PerContextProgram)
    (loc : Locations) (primitives : List (Option DrawElements)) (i : Layer)
    (rest : List Layer) (v : LoopVars) (h : i.isDrawn = false) :
    layerLoop ext pcp loc primitives (i :: rest) v
      = layerLoop ext pcp loc primitives rest v := by
  have hb : layerBody ext pcp loc primitives i v = (Run.skip, v) := by
    unfold layerBody
    unfold Layer.isDrawn at h
    simp [h]
  simp only [layerLoop, hb, Run.skip_seq]

theorem layerLoop_cons_drawn (e : GL2Extensions) (p : PerContextProgram)
    (loc : Locations) (primitives : List (Option DrawElements)) (i : Layer)
    (rest : List Layer) (v : LoopVars) (h : i.isDrawn = true) :
    layerLoop (some e) (some p) loc primitives (i :: rest) v
      = (⟨bindCalls loc i ++ uniformCalls loc i.imageLayer v
            ++ (drawPrimitiveSets primitives).calls
            ++ (layerLoop (some e) (some p) loc primitives rest
                  (nextVars loc i.imageLayer v)).1.calls,
          (layerLoop (some e) (some p) loc primitives rest
                  (nextVars loc i.imageLayer v)).1.crashed⟩,
         (layerLoop (some e) (some p) loc primitives rest
                  (nextVars loc i.imageLayer v)).2) := by
  simp only [layerLoop, layerBody_bound, h, if_true, Run.seq_ok]

/-- With a valid `ext` and a bound program the loop never crashes. -/
theorem layerLoop_bound_crashed (e : GL2Extensions) (p : PerContextProgram)
    (loc : Locations) (primitives : List (Option DrawElements)) (layers : List Layer)
    (v : LoopVars) :
    (layerLoop (some e) (some p) loc primitives layers v).1.crashed = false := by
  induction layers generalizing v with
  | nil => rfl
  | cons i rest ih =>
    cases h : i.isDrawn with
    | false => rw [layerLoop_cons_skipped _ _ _ _ _ _ _ h]; exact ih v
    | true => rw [layerLoop_cons_drawn _ _ _ _ _ _ _ h]; exact ih _

/-- Under a bound program the counter ends at its start value plus the
number of drawn layers. -/
theorem layerLoop_bound_layersDrawn (e : GL2Extensions) (p : PerContextProgram)
    (loc : Locations) (primitives : List (Option DrawElements)) (layers : List Layer)
    (v : LoopVars) :
    (layerLoop (some e) (some p) loc primitives layers v).2.layersDrawn
      = v.layersDrawn + (drawnLayers layers).length := by
  induction layers generalizing v with
  | nil => simp [layerLoop, drawnLayers]
  | cons i rest ih =>
    cases h : i.isDrawn with
    | false =>
      rw [layerLoop_cons_skipped _ _ _ _ _ _ _ h, ih]
      simp [drawnLayers, h]
    | true =>
      rw [layerLoop_cons_drawn _ _ _ _ _ _ _ h]
      simp only
      rw [ih]
      simp [drawnLayers, h, nextVars]
      omega

/-- When no layer is drawn the loop issues no call and leaves its variables
as they were, whatever `ext` and the program are. -/
theorem layerLoop_none_drawn (ext : Option GL2Extensions) (pcp : Option PerContextProgram)
    (loc : Locations) (primitives : List (Option DrawElements)) (layers : List Layer)
    (v : LoopVars) (h : ∀ i ∈ layers, i.isDrawn = false) :
    layerLoop ext pcp loc primitives layers v = (Run.skip, v) := by
  induction layers with
  | nil => rfl
  | cons i rest ih =>
    rw [layerLoop_cons_skipped _ _ _ _ _ _ _ (h i (List.mem_cons_self _ _))]
    exact ih (fun j hj => h j (List.mem_cons_of_mem _ hj))

theorem applyTileKey_some (e : GL2Extensions) (loc : Locations) (t : Vec4f) :
    applyTileKey (some e) loc t
      = ⟨if loc.tileKey ≥ 0 then [GLCall.glUniform4fv .tileKey loc.tileKey t] else [], false⟩ := by
  unfold applyTileKey
  split <;> rfl

theorem applyBirthTime_some (e : GL2Extensions) (loc : Locations) (state : OsgState)
    (pcd : List PerContextData) :
    (applyBirthTime (some e) loc state pcd).1
      = ⟨if loc.birthTime ≥ 0 then
            [GLCall.glUniform1f .birthTime loc.birthTime
              (latchBirthTime (pcdAt pcd state.contextID) state.frameStamp).birthTime]
          else [], false⟩ := by
  unfold applyBirthTime
  split <;> rfl

/-! ## Observations: lemmas -/

theorem uniform1iValues_append (u : UniformName) (a b : List GLCall) :
    uniform1iValues u (a ++ b) = uniform1iValues u a ++ uniform1iValues u b := by
  simp [uniform1iValues]

theorem uniform1fValues_append (u : UniformName) (a b : List GLCall) :
    uniform1fValues u (a ++ b) = uniform1fValues u a ++ uniform1fValues u b := by
  simp [uniform1fValues]

theorem drawnPrimitives_append (a b : List GLCall) :
    drawnPrimitives (a ++ b) = drawnPrimitives a ++ drawnPrimitives b := by
  simp [drawnPrimitives]

theorem uniform1iValues_bindCalls (u : UniformName) (loc : Locations) (i : Layer) :
    uniform1iValues u (bindCalls loc i) = [] := by
  unfold bindCalls uniform1iValues
  cases i.tex <;> cases i.texMatrix <;> simp

theorem uniform1fValues_bindCalls (u : UniformName) (loc : Locations) (i : Layer) :
    uniform1fValues u (bindCalls loc i) = [] := by
  unfold bindCalls uniform1fValues
  cases i.tex <;> cases i.texMatrix <;> simp

theorem uniform1iValues_drawPrimitiveSets (u : UniformName)
    (primitives : List (Option DrawElements)) :
    uniform1iValues u (drawPrimitiveSets primitives).calls = [] := by
  unfold drawPrimitiveSets uniform1iValues
  induction primitives with
  | nil => rfl
  | cons a rest ih => cases a <;> simpa using ih

theorem uniform1fValues_drawPrimitiveSets (u : UniformName)
    (primitives : List (Option DrawElements)) :
    uniform1fValues u (drawPrimitiveSets primitives).calls = [] := by
  unfold drawPrimitiveSets uniform1fValues
  induction primitives with
  | nil => rfl
  | cons a rest ih => cases a <;> simpa using ih

theorem uniform1iValues_uid_uniformCalls (loc : Locations) (imageLayer : ImageLayer)
    (v : LoopVars) (h : loc.uid ≥ 0) :
    uniform1iValues .uid (uniformCalls loc imageLayer v) = [imageLayer.uid] := by
  unfold uniformCalls uniform1iValues
  by_cases h1 : uploadsOpacity loc imageLayer v.prevOpacity = true <;>
    by_cases h3 : loc.order ≥ 0 <;> simp [h, h1, h3]

theorem uniform1iValues_order_uniformCalls (loc : Locations) (imageLayer : ImageLayer)
    (v : LoopVars) (h : loc.order ≥ 0) :
    uniform1iValues .order (uniformCalls loc imageLayer v) = [(v.layersDrawn : Int)] := by
  unfold uniformCalls uniform1iValues
  by_cases h1 : uploadsOpacity loc imageLayer v.prevOpacity = true <;>
    by_cases h2 : loc.uid ≥ 0 <;> simp [h, h1, h2]

theorem uniform1fValues_opacity_uniformCalls (loc : Locations) (imageLayer : ImageLayer)
    (v : LoopVars) :
    uniform1fValues .opacity (uniformCalls loc imageLayer v)
      = if uploadsOpacity loc imageLayer v.prevOpacity then [imageLayer.opacity] else [] := by
  unfold uniformCalls uniform1fValues
  by_cases h1 : uploadsOpacity loc imageLayer v.prevOpacity = true <;>
    by_cases h2 : loc.uid ≥ 0 <;> by_cases h3 : loc.order ≥ 0 <;> simp [h1, h2, h3]

theorem uidOrderPairs_drawPrimitiveSets (primitives : List (Option DrawElements))
    (rest : List GLCall) :
    uidOrderPairs ((drawPrimitiveSets primitives).calls ++ rest) = uidOrderPairs rest := by
  unfold drawPrimitiveSets
  induction primitives with
  | nil => rfl
  | cons a tl ih =>
    cases a with
    | none => simpa [uidOrderPairs] using ih
    | some d => simpa [uidOrderPairs] using ih

/-- The calls of one drawn layer contribute exactly one (uid, order) pair
when both uniforms are found. -/
theorem uidOrderPairs_layer (loc : Locations) (primitives : List (Option DrawElements))
    (i : Layer) (v : LoopVars) (rest : List GLCall)
    (huid : loc.uid ≥ 0) (horder : loc.order ≥ 0) :
    uidOrderPairs (bindCalls loc i ++ uniformCalls loc i.imageLayer v
        ++ (drawPrimitiveSets primitives).calls ++ rest)
      = (i.imageLayer.uid, (v.layersDrawn : Int)) :: uidOrderPairs rest := by
  have hd := uidOrderPairs_drawPrimitiveSets primitives rest
  unfold bindCalls uniformCalls
  cases i.tex <;> cases i.texMatrix <;>
    by_cases h1 : uploadsOpacity loc i.imageLayer v.prevOpacity = true <;>
    simp [h1, huid, horder, uidOrderPairs, hd]

/-! ## Frame synchronisation: the claims -/

/-- C1. Layer reorder: when the authoritative ids are distinct, the records
of the tile list have distinct ids that all occur in the authoritative order,
and `needsSync()` (both reads) and `sync()` report true, the tile list after
the draw is a rearrangement of the records of the old tile list, and its ids
are the authoritative ids filtered to those present in the old tile list, in
the authoritative order. -/
theorem C1_reorder_follows_authoritative_order
    (g : MPGeometry) (frame : MapFrame) (state : OsgState)
    (hneeds : frame.needsSync = true) (hlocked : frame.needsSyncLocked = true)
    (hchanged : frame.sync = true)
    (hA : (frame.imageLayers.map (fun i => i.uid)).Nodup)
    (hL : (g.layers.map (fun l => l.layerID)).Nodup)
    (hsub : ∀ l ∈ g.layers, l.layerID ∈ frame.imageLayers.map (fun i => i.uid)) :
    (drawPrimitivesImplementation g frame state).layers.Perm g.layers
    ∧ (drawPrimitivesImplementation g frame state).layers.map (fun l => l.layerID)
        = (frame.imageLayers.map (fun i => i.uid)).filter
            (fun a => decide (a ∈ g.layers.map (fun l => l.layerID))) := by
  rw [draw_layers, syncLayers_of_changed g.layers hneeds hlocked hchanged]
  refine ⟨?_, map_layerID_reorder _ _⟩
  have hnd : (reorder frame.imageLayers g.layers).Nodup := by
    apply List.Nodup.of_map (fun l => l.layerID)
    rw [map_layerID_reorder]
    exact hA.filter _
  rw [List.perm_ext_iff_of_nodup hnd (List.Nodup.of_map _ hL)]
  intro r
  constructor
  · intro hr
    obtain ⟨i, _, hi⟩ := mem_reorder.1 hr
    exact (findLayer_some hi).1
  · intro hr
    obtain ⟨i, hi, hid⟩ := List.mem_map.1 (hsub r hr)
    obtain ⟨j, hj⟩ := findLayer_isSome_of_mem hr
    obtain ⟨hjm, hjid⟩ := findLayer_some hj
    have hjr : j = r :=
      List.inj_on_of_nodup_map hL hjm hr hjid
    subst hjr
    exact mem_reorder.2 ⟨i, hi, by rw [hid]; exact hj⟩

/-- C1, at a concrete input: the authoritative order 1, 2, 3 and the tile
list holding the records 3 and 1. -/
theorem C1_reorder_follows_authoritative_order_witness :
    (drawPrimitivesImplementation
        ⟨true, ⟨GLfloat.zero, GLfloat.zero, GLfloat.zero, GLfloat.zero⟩,
          [⟨3, ⟨3, true, GLfloat.one⟩, some 30, some 31⟩,
           ⟨1, ⟨1, true, GLfloat.half⟩, some 10, none⟩], [], []⟩
        ⟨true, true, true,
          [⟨1, true, GLfloat.half⟩, ⟨2, true, GLfloat.one⟩, ⟨3, true, GLfloat.one⟩]⟩
        ⟨0, none, none⟩).layers.Perm
      [⟨3, ⟨3, true, GLfloat.one⟩, some 30, some 31⟩,
       ⟨1, ⟨1, true, GLfloat.half⟩, some 10, none⟩]
    ∧ (drawPrimitivesImplementation
        ⟨true, ⟨GLfloat.zero, GLfloat.zero, GLfloat.zero, GLfloat.zero⟩,
          [⟨3, ⟨3, true, GLfloat.one⟩, some 30, some 31⟩,
           ⟨1, ⟨1, true, GLfloat.half⟩, some 10, none⟩], [], []⟩
        ⟨true, true, true,
          [⟨1, true, GLfloat.half⟩, ⟨2, true, GLfloat.one⟩, ⟨3, true, GLfloat.one⟩]⟩
        ⟨0, none, none⟩).layers.map (fun l => l.layerID)
      = [1, 3] :=
  C1_reorder_follows_authoritative_order
    ⟨true, ⟨GLfloat.zero, GLfloat.zero, GLfloat.zero, GLfloat.zero⟩,
      [⟨3, ⟨3, true, GLfloat.one⟩, some 30, some 31⟩,
       ⟨1, ⟨1, true, GLfloat.half⟩, some 10, none⟩], [], []⟩
    ⟨true, true, true,
      [⟨1, true, GLfloat.half⟩, ⟨2, true, GLfloat.one⟩, ⟨3, true, GLfloat.one⟩]⟩
    ⟨0, none, none⟩ rfl rfl rfl (by decide) (by decide) (by decide)

/-- C9. Synchronisation is idempotent: reordering a tile list against an
authoritative order and reordering the result against the same order gives
what one reorder gives; and so does a second draw whose frame reports the
same answers as the first, for the tile list of the geometry. -/
theorem C9_sync_idempotent (imageLayers : List ImageLayer) (layers : List Layer) :
    reorder imageLayers (reorder imageLayers layers) = reorder imageLayers layers
    ∧ ∀ (frame : MapFrame) (g : MPGeometry) (state1 state2 : OsgState),
        (drawPrimitivesImplementation
            ⟨g.supportsGLSL, g.tileKeyValue,
              (drawPrimitivesImplementation g frame state1).layers,
              (drawPrimitivesImplementation g frame state1).pcd, g.primitives⟩
            frame state2).layers
          = (drawPrimitivesImplementation g frame state1).layers := by
  refine ⟨reorder_idem _ _, ?_⟩
  intro frame g state1 state2
  simp only [draw_layers]
  unfold syncLayers
  by_cases h1 : frame.needsSync = true
  · by_cases h2 : (frame.needsSyncLocked && frame.sync) = true
    · simp only [h1, h2, if_true]
      exact reorder_idem _ _
    · simp only [h1, h2, if_true]
      simp
  · simp only [h1]
    simp

/-- C10. Drop-unmatched policy: with no assumption on the authoritative
order or the tile list, every record of the reordered list is a record of the
old list whose id is authoritative; a record of the old list whose id is not
authoritative is absent from the reordered list; and no id that is absent
from the old list occurs in the reordered one. -/
theorem C10_reorder_drops_unmatched (imageLayers : List ImageLayer) (layers : List Layer) :
    (∀ r ∈ reorder imageLayers layers,
        r ∈ layers ∧ r.layerID ∈ imageLayers.map (fun i => i.uid))
    ∧ (∀ r ∈ layers, r.layerID ∉ imageLayers.map (fun i => i.uid) →
        r ∉ reorder imageLayers layers)
    ∧ (∀ uid : UID, uid ∉ layers.map (fun l => l.layerID) →
        uid ∉ (reorder imageLayers layers).map (fun l => l.layerID)) := by
  have key : ∀ r ∈ reorder imageLayers layers,
      r ∈ layers ∧ r.layerID ∈ imageLayers.map (fun i => i.uid) := by
    intro r hr
    obtain ⟨i, hi, hf⟩ := mem_reorder.1 hr
    obtain ⟨hm, hid⟩ := findLayer_some hf
    exact ⟨hm, List.mem_map.2 ⟨i, hi, hid.symm⟩⟩
  refine ⟨key, ?_, ?_⟩
  · intro r _ hnot hr
    exact hnot (key r hr).2
  · intro uid hnot hmem
    obtain ⟨r, hr, rfl⟩ := List.mem_map.1 hmem
    exact hnot (List.mem_map.2 ⟨r, (key r hr).1, rfl⟩)

/-! ## The layer loop: the claims -/

theorem getExt_of_glsl {g : MPGeometry} (state : OsgState) (h : g.supportsGLSL = true) :
    getExt g state = some ⟨state.contextID⟩ := by
  simp [getExt, h]

theorem getPcp_of_glsl {g : MPGeometry} {state : OsgState} {p : PerContextProgram}
    (h : g.supportsGLSL = true) (hp : state.lastAppliedProgramObject = some p) :
    getPcp g state = some p := by
  simp [getPcp, h, hp]

theorem layerLoop_uid_values (e : GL2Extensions) (p : PerContextProgram)
    (loc : Locations) (primitives : List (Option DrawElements)) (layers : List Layer)
    (v : LoopVars) (huid : loc.uid ≥ 0) :
    uniform1iValues .uid (layerLoop (some e) (some p) loc primitives layers v).1.calls
      = (drawnLayers layers).map (fun i => i.imageLayer.uid) := by
  induction layers generalizing v with
  | nil => rfl
  | cons i rest ih =>
    cases h : i.isDrawn with
    | false =>
      rw [layerLoop_cons_skipped _ _ _ _ _ _ _ h, ih]
      simp [drawnLayers, h]
    | true =>
      rw [layerLoop_cons_drawn _ _ _ _ _ _ _ h]
      simp only [uniform1iValues_append, uniform1iValues_bindCalls,
        uniform1iValues_drawPrimitiveSets, uniform1iValues_uid_uniformCalls _ _ _ huid, ih]
      simp [drawnLayers, h]

theorem layerLoop_order_values (e : GL2Extensions) (p : PerContextProgram)
    (loc : Locations) (primitives : List (Option DrawElements)) (layers : List Layer)
    (v : LoopVars) (horder : loc.order ≥ 0) :
    uniform1iValues .order (layerLoop (some e) (some p) loc primitives layers v).1.calls
      = (List.range' v.layersDrawn (drawnLayers layers).length).map (fun n => (n : Int)) := by
  induction layers generalizing v with
  | nil => rfl
  | cons i rest ih =>
    cases h : i.isDrawn with
    | false =>
      rw [layerLoop_cons_skipped _ _ _ _ _ _ _ h, ih]
      simp [drawnLayers, h]
    | true =>
      rw [layerLoop_cons_drawn _ _ _ _ _ _ _ h]
      simp only [uniform1iValues_append, uniform1iValues_bindCalls,
        uniform1iValues_drawPrimitiveSets, uniform1iValues_order_uniformCalls _ _ _ horder, ih]
      simp [drawnLayers, h, nextVars, List.range'_succ]

theorem layerLoop_pairs (e : GL2Extensions) (p : PerContextProgram)
    (loc : Locations) (primitives : List (Option DrawElements)) (layers : List Layer)
    (v : LoopVars) (huid : loc.uid ≥ 0) (horder : loc.order ≥ 0) :
    uidOrderPairs (layerLoop (some e) (some p) loc primitives layers v).1.calls
      = ((drawnLayers layers).map (fun i => i.imageLayer.uid)).zip
          ((List.range' v.layersDrawn (drawnLayers layers).length).map (fun n => (n : Int))) := by
  induction layers generalizing v with
  | nil => rfl
  | cons i rest ih =>
    cases h : i.isDrawn with
    | false =>
      rw [layerLoop_cons_skipped _ _ _ _ _ _ _ h, ih]
      simp [drawnLayers, h]
    | true =>
      rw [layerLoop_cons_drawn _ _ _ _ _ _ _ h]
      simp only
      rw [uidOrderPairs_layer _ _ _ _ _ huid horder, ih]
      simp [drawnLayers, h, nextVars, List.range'_succ]

/-- A call that is not an upload of the uid uniform starts no pair. -/
theorem uidOrderPairs_cons_skip (z : GLCall) (r : List GLCall)
    (hz : ∀ l v, z ≠ GLCall.glUniform1i .uid l v) :
    uidOrderPairs (z :: r) = uidOrderPairs r := by
  cases z with
  | glUniform1i u l v =>
    cases u
    case uid => exact absurd rfl (hz l v)
    all_goals simp [uidOrderPairs]
  | _ => simp [uidOrderPairs]

theorem layerLoop_pairs_append (e : GL2Extensions) (p : PerContextProgram)
    (loc : Locations) (primitives : List (Option DrawElements)) (layers : List Layer)
    (v : LoopVars) (tail : List GLCall) (huid : loc.uid ≥ 0) (horder : loc.order ≥ 0) :
    uidOrderPairs ((layerLoop (some e) (some p) loc primitives layers v).1.calls ++ tail)
      = ((drawnLayers layers).map (fun i => i.imageLayer.uid)).zip
          ((List.range' v.layersDrawn (drawnLayers layers).length).map (fun n => (n : Int)))
        ++ uidOrderPairs tail := by
  induction layers generalizing v with
  | nil => rfl
  | cons i rest ih =>
    cases h : i.isDrawn with
    | false =>
      rw [layerLoop_cons_skipped _ _ _ _ _ _ _ h, ih]
      simp [drawnLayers, h]
    | true =>
      rw [layerLoop_cons_drawn _ _ _ _ _ _ _ h]
      simp only
      rw [List.append_assoc, uidOrderPairs_layer _ _ _ _ _ huid horder, ih]
      simp [drawnLayers, h, nextVars, List.range'_succ]

/-- With a bound program a draw call does not crash, and its calls are those
of the tile-key upload, the birth-time upload, the loop and the fallback, in
this order. -/
theorem draw_calls_bound (g : MPGeometry) (frame : MapFrame) (state : OsgState)
    (p : PerContextProgram)
    (hglsl : g.supportsGLSL = true) (hpcp : state.lastAppliedProgramObject = some p) :
    (drawPrimitivesImplementation g frame state).calls
      = (applyTileKey (some ⟨state.contextID⟩) (resolveLocations (some p)) g.tileKeyValue).calls
        ++ ((applyBirthTime (some ⟨state.contextID⟩) (resolveLocations (some p)) state
              g.pcd).1.calls
        ++ ((layerLoop (some ⟨state.contextID⟩) (some p) (resolveLocations (some p))
              g.primitives (syncLayers frame g.layers) LoopVars.init).1.calls
        ++ (fallback (some ⟨state.contextID⟩) (resolveLocations (some p)) g.primitives
              (drawnLayers (syncLayers frame g.layers)).length).calls)) := by
  unfold drawPrimitivesImplementation
  simp only
  rw [getExt_of_glsl state hglsl, getPcp_of_glsl hglsl hpcp, applyTileKey_some,
    applyBirthTime_some, layerLoop_bound_layersDrawn]
  simp [Run.seq, layerLoop_bound_crashed, LoopVars.init]

theorem uidOrderPairs_fallback (e : GL2Extensions) (loc : Locations)
    (primitives : List (Option DrawElements)) (layersDrawn : Nat)
    (huid : loc.uid ≥ 0) (horder : loc.order ≥ 0) :
    uidOrderPairs (fallback (some e) loc primitives layersDrawn).calls
      = if layersDrawn = 0 then [(-1, 0)] else [] := by
  have hd := uidOrderPairs_drawPrimitiveSets primitives []
  rw [List.append_nil] at hd
  unfold fallback
  by_cases h0 : layersDrawn = 0
  · by_cases h1 : loc.opacity ≥ 0 <;>
      simp [h0, h1, huid, horder, extCall, Run.seq, Run.skip, uidOrderPairs, hd,
        drawPrimitiveSets_crashed]
  · simp [h0, Run.skip, uidOrderPairs]

/-- C2. Draw-order assignment in the layer loop: with a program bound and
the uid and order uniforms found, the (uid, order) pairs the loop uploads
are the uids of the layers that are visible with an opacity above zero, in
tile-list order, paired with 0, 1, ..., k-1, k being the number of such
layers; the uid uploads and the order uploads are those and no others, the
counter ends at k, and the loop does not crash.  A layer that is invisible or
has an opacity of at most zero is not among the drawn layers; a visible layer
with an opacity above zero is, whatever its texture and texture matrix.  Over
the whole draw call the pairs uploaded are those of the loop on the
synchronised tile list, followed by the pair (-1, 0) of the fallback pass
exactly when no layer was drawn. -/
theorem C2_draw_order_dense (g : MPGeometry) (frame : MapFrame) (state : OsgState)
    (p : PerContextProgram) (layers : List Layer)
    (hglsl : g.supportsGLSL = true) (hpcp : state.lastAppliedProgramObject = some p)
    (huid : p.getUniformLocation .uid ≥ 0) (horder : p.getUniformLocation .order ≥ 0) :
    uidOrderPairs (layerLoop (getExt g state) (getPcp g state)
        (resolveLocations (getPcp g state)) g.primitives layers LoopVars.init).1.calls
      = ((drawnLayers layers).map (fun i => i.imageLayer.uid)).zip
          ((List.range (drawnLayers layers).length).map (fun n => (n : Int)))
    ∧ uniform1iValues .uid (layerLoop (getExt g state) (getPcp g state)
        (resolveLocations (getPcp g state)) g.primitives layers LoopVars.init).1.calls
      = (drawnLayers layers).map (fun i => i.imageLayer.uid)
    ∧ uniform1iValues .order (layerLoop (getExt g state) (getPcp g state)
        (resolveLocations (getPcp g state)) g.primitives layers LoopVars.init).1.calls
      = (List.range (drawnLayers layers).length).map (fun n => (n : Int))
    ∧ (layerLoop (getExt g state) (getPcp g state)
        (resolveLocations (getPcp g state)) g.primitives layers LoopVars.init).2.layersDrawn
      = (drawnLayers layers).length
    ∧ (layerLoop (getExt g state) (getPcp g state)
        (resolveLocations (getPcp g state)) g.primitives layers LoopVars.init).1.crashed
      = false
    ∧ (∀ i ∈ layers, (i.imageLayer.visible = false ∨ i.imageLayer.opacity.le GLfloat.zero = true)
        → i ∉ drawnLayers layers)
    ∧ (∀ i ∈ layers, i.imageLayer.visible = true → i.imageLayer.opacity.gt GLfloat.zero = true
        → i ∈ drawnLayers layers)
    ∧ uidOrderPairs (drawPrimitivesImplementation g frame state).calls
      = ((drawnLayers (syncLayers frame g.layers)).map (fun i => i.imageLayer.uid)).zip
          ((List.range (drawnLayers (syncLayers frame g.layers)).length).map
            (fun n => (n : Int)))
        ++ (if (drawnLayers (syncLayers frame g.layers)).length = 0 then [(-1, 0)] else []) := by
  have hu : (resolveLocations (some p)).uid ≥ 0 := huid
  have ho : (resolveLocations (some p)).order ≥ 0 := horder
  have hwhole : uidOrderPairs (drawPrimitivesImplementation g frame state).calls
      = ((drawnLayers (syncLayers frame g.layers)).map (fun i => i.imageLayer.uid)).zip
          ((List.range (drawnLayers (syncLayers frame g.layers)).length).map
            (fun n => (n : Int)))
        ++ (if (drawnLayers (syncLayers frame g.layers)).length = 0 then [(-1, 0)] else []) := by
    rw [draw_calls_bound g frame state p hglsl hpcp, applyTileKey_some, applyBirthTime_some]
    have hpre : ∀ (a b : Prop) [Decidable a] [Decidable b] (x y : GLCall) (rest : List GLCall),
        (∀ l v, x ≠ GLCall.glUniform1i .uid l v) → (∀ l v, y ≠ GLCall.glUniform1i .uid l v) →
        uidOrderPairs ((if a then [x] else []) ++ ((if b then [y] else []) ++ rest))
          = uidOrderPairs rest := by
      intro a b _ _ x y rest hx hy
      by_cases ha : a <;> by_cases hb : b <;> simp [ha, hb, uidOrderPairs_cons_skip _ _ hx, uidOrderPairs_cons_skip _ _ hy]
    rw [hpre _ _ _ _ _ (by intro l v hc; cases hc) (by intro l v hc; cases hc),
      layerLoop_pairs_append _ _ _ _ _ _ _ hu ho, uidOrderPairs_fallback _ _ _ _ hu ho,
      List.range_eq_range']
    rfl
  rw [getExt_of_glsl state hglsl, getPcp_of_glsl hglsl hpcp]
  refine ⟨?_, ?_, ?_, ?_, ?_, ?_, ?_, hwhole⟩
  · rw [layerLoop_pairs _ _ _ _ _ _ hu ho, List.range_eq_range']
    rfl
  · exact layerLoop_uid_values _ _ _ _ _ _ hu
  · rw [layerLoop_order_values _ _ _ _ _ _ ho, List.range_eq_range']
    rfl
  · rw [layerLoop_bound_layersDrawn]
    simp [LoopVars.init]
  · exact layerLoop_bound_crashed _ _ _ _ _ _
  · intro i _ h hmem
    have hd : i.isDrawn = true := (List.mem_filter.1 hmem).2
    unfold Layer.isDrawn at hd
    rw [Bool.and_eq_true] at hd
    rcases h with h | h
    · rw [h] at hd
      exact Bool.false_ne_true hd.1
    · rw [GLfloat.not_gt_zero_of_le_zero h] at hd
      exact Bool.false_ne_true hd.2
  · intro i hi hv ho
    exact List.mem_filter.2 ⟨hi, by simp [Layer.isDrawn, hv, ho]⟩

/-- C2, at a concrete input: four layers of which the third is invisible;
the pairs uploaded are (10, 0), (11, 1), (13, 2). -/
theorem C2_draw_order_dense_witness :
    uidOrderPairs (layerLoop (getExt (sampleGeometry []) sampleState)
        (getPcp (sampleGeometry []) sampleState)
        (resolveLocations (getPcp (sampleGeometry []) sampleState))
        (sampleGeometry []).primitives
        [sampleLayer 10 true GLfloat.half, sampleLayer 11 true GLfloat.half,
         sampleLayer 12 false GLfloat.one, sampleLayer 13 true GLfloat.pointEight]
        LoopVars.init).1.calls
      = [(10, 0), (11, 1), (13, 2)] :=
  (C2_draw_order_dense (sampleGeometry []) idleFrame sampleState fullProgram
    [sampleLayer 10 true GLfloat.half, sampleLayer 11 true GLfloat.half,
     sampleLayer 12 false GLfloat.one, sampleLayer 13 true GLfloat.pointEight]
    rfl rfl (by decide) (by decide)).1

/-! ## The fallback pass -/

theorem mem_syncLayers {frame : MapFrame} {layers : List Layer} {i : Layer}
    (h : i ∈ syncLayers frame layers) : i ∈ layers := by
  unfold syncLayers at h
  split at h
  · split at h
    · obtain ⟨a, _, ha⟩ := mem_reorder.1 h
      exact (findLayer_some ha).1
    · exact h
  · exact h

/-- The calls of the tile-key and birth-time uploads (lines 129-148) under a
valid `ext`. -/
theorem preludeCalls_observations (e : GL2Extensions) (loc : Locations) (state : OsgState)
    (g : MPGeometry) :
    uniform1fValues .opacity ((applyTileKey (some e) loc g.tileKeyValue).calls
        ++ (applyBirthTime (some e) loc state g.pcd).1.calls) = []
    ∧ (∀ u, uniform1iValues u ((applyTileKey (some e) loc g.tileKeyValue).calls
        ++ (applyBirthTime (some e) loc state g.pcd).1.calls) = [])
    ∧ drawnPrimitives ((applyTileKey (some e) loc g.tileKeyValue).calls
        ++ (applyBirthTime (some e) loc state g.pcd).1.calls) = [] := by
  rw [applyTileKey_some, applyBirthTime_some]
  refine ⟨?_, ?_, ?_⟩
  · by_cases h1 : loc.tileKey ≥ 0 <;> by_cases h2 : loc.birthTime ≥ 0 <;>
      simp [uniform1fValues, h1, h2]
  · intro u
    by_cases h1 : loc.tileKey ≥ 0 <;> by_cases h2 : loc.birthTime ≥ 0 <;>
      simp [uniform1iValues, h1, h2]
  · by_cases h1 : loc.tileKey ≥ 0 <;> by_cases h2 : loc.birthTime ≥ 0 <;>
      simp [drawnPrimitives, h1, h2]

theorem drawnPrimitives_drawPrimitiveSets (primitives : List (Option DrawElements)) :
    drawnPrimitives (drawPrimitiveSets primitives).calls = primitives.reduceOption := by
  unfold drawPrimitiveSets drawnPrimitives
  induction primitives with
  | nil => rfl
  | cons a rest ih =>
    cases a with
    | none => simpa [List.reduceOption_cons_of_none] using ih
    | some d => simpa [List.reduceOption_cons_of_some] using ih

theorem fallback_zero_found (e : GL2Extensions) (loc : Locations)
    (primitives : List (Option DrawElements))
    (h1 : loc.opacity ≥ 0) (h2 : loc.uid ≥ 0) (h3 : loc.order ≥ 0) :
    fallback (some e) loc primitives 0
      = ⟨[GLCall.glUniform1f .opacity loc.opacity GLfloat.one,
          GLCall.glUniform1i .uid loc.uid (-1),
          GLCall.glUniform1i .order loc.order 0] ++ (drawPrimitiveSets primitives).calls,
         false⟩ := by
  unfold fallback
  simp only [h1, h2, h3, if_true, extCall_some, Run.seq_ok, drawPrimitiveSets_crashed]
  rfl

/-- With a bound program whose opacity, uid and order uniforms are found, a
draw call in which the loop draws no layer issues the tile-key and
birth-time uploads followed by exactly the fallback pass. -/
theorem draw_calls_of_none_drawn (g : MPGeometry) (frame : MapFrame) (state : OsgState)
    (p : PerContextProgram)
    (hglsl : g.supportsGLSL = true) (hpcp : state.lastAppliedProgramObject = some p)
    (hopacity : p.getUniformLocation .opacity ≥ 0)
    (huid : p.getUniformLocation .uid ≥ 0) (horder : p.getUniformLocation .order ≥ 0)
    (hnone : ∀ i ∈ g.layers, i.isDrawn = false) :
    (drawPrimitivesImplementation g frame state).calls
      = (applyTileKey (getExt g state) (resolveLocations (getPcp g state)) g.tileKeyValue).calls
        ++ (applyBirthTime (getExt g state) (resolveLocations (getPcp g state)) state g.pcd).1.calls
        ++ [GLCall.glUniform1f .opacity (p.getUniformLocation .opacity) GLfloat.one,
            GLCall.glUniform1i .uid (p.getUniformLocation .uid) (-1),
            GLCall.glUniform1i .order (p.getUniformLocation .order) 0]
        ++ (drawPrimitiveSets g.primitives).calls
    ∧ (drawPrimitivesImplementation g frame state).crashed = false := by
  have hloop := layerLoop_none_drawn (getExt g state) (getPcp g state)
    (resolveLocations (getPcp g state)) g.primitives (syncLayers frame g.layers)
    LoopVars.init (fun i hi => hnone i (mem_syncLayers hi))
  unfold drawPrimitivesImplementation
  simp only [hloop]
  rw [getExt_of_glsl state hglsl, getPcp_of_glsl hglsl hpcp, applyTileKey_some,
    applyBirthTime_some]
  have h1 : (resolveLocations (some p)).opacity ≥ 0 := hopacity
  have h2 : (resolveLocations (some p)).uid ≥ 0 := huid
  have h3 : (resolveLocations (some p)).order ≥ 0 := horder
  have hf := fallback_zero_found ⟨state.contextID⟩ (resolveLocations (some p)) g.primitives
    h1 h2 h3
  simp only [Run.seq_ok, Run.skip_seq, LoopVars.init, hf]
  simp [resolveLocations]

theorem not_isDrawn_of_invisible_or_le {i : Layer}
    (h : i.imageLayer.visible = false ∨ i.imageLayer.opacity.le GLfloat.zero = true) :
    i.isDrawn = false := by
  unfold Layer.isDrawn
  rcases h with h | h
  · simp [h]
  · simp [GLfloat.not_gt_zero_of_le_zero h]

/-- C3. Zero-visible-layers fallback: when every layer of the tile list
(possibly empty) is invisible or has an opacity of at most zero, a program is
bound and the opacity, uid and order uniforms are found, one draw call
issues, after the tile-key and birth-time uploads, exactly the fallback pass:
one upload of opacity 1, one upload of uid -1, one upload of order 0 and one
draw of each (non-null) primitive set; these are the only opacity, uid and
order uploads and the only draws of the call, no texture is bound and no
texture matrix is uploaded, and the call does not crash. -/
theorem C3_fallback_pass (g : MPGeometry) (frame : MapFrame) (state : OsgState)
    (p : PerContextProgram)
    (hglsl : g.supportsGLSL = true) (hpcp : state.lastAppliedProgramObject = some p)
    (hopacity : p.getUniformLocation .opacity ≥ 0)
    (huid : p.getUniformLocation .uid ≥ 0) (horder : p.getUniformLocation .order ≥ 0)
    (hnone : ∀ i ∈ g.layers,
      i.imageLayer.visible = false ∨ i.imageLayer.opacity.le GLfloat.zero = true) :
    (drawPrimitivesImplementation g frame state).calls
      = (applyTileKey (getExt g state) (resolveLocations (getPcp g state)) g.tileKeyValue).calls
        ++ (applyBirthTime (getExt g state) (resolveLocations (getPcp g state)) state g.pcd).1.calls
        ++ [GLCall.glUniform1f .opacity (p.getUniformLocation .opacity) GLfloat.one,
            GLCall.glUniform1i .uid (p.getUniformLocation .uid) (-1),
            GLCall.glUniform1i .order (p.getUniformLocation .order) 0]
        ++ (drawPrimitiveSets g.primitives).calls
    ∧ uniform1fValues .opacity (drawPrimitivesImplementation g frame state).calls
        = [GLfloat.one]
    ∧ uniform1iValues .uid (drawPrimitivesImplementation g frame state).calls = [-1]
    ∧ uniform1iValues .order (drawPrimitivesImplementation g frame state).calls = [0]
    ∧ drawnPrimitives (drawPrimitivesImplementation g frame state).calls
        = g.primitives.reduceOption
    ∧ (∀ c ∈ (drawPrimitivesImplementation g frame state).calls,
        c.writes .texMatrix = false ∧ (∀ t, c ≠ GLCall.texApply t)
          ∧ (∀ n, c ≠ GLCall.setActiveTextureUnit n))
    ∧ (drawPrimitivesImplementation g frame state).crashed = false := by
  obtain ⟨hcalls, hcrash⟩ := draw_calls_of_none_drawn g frame state p hglsl hpcp hopacity huid
    horder (fun i hi => not_isDrawn_of_invisible_or_le (hnone i hi))
  refine ⟨hcalls, ?_, ?_, ?_, ?_, ?_, hcrash⟩
  all_goals rw [hcalls, getExt_of_glsl state hglsl]
  · have hpre := (preludeCalls_observations ⟨state.contextID⟩
      (resolveLocations (getPcp g state)) state g).1
    rw [uniform1fValues_append, uniform1fValues_append, hpre,
      uniform1fValues_drawPrimitiveSets]
    simp [uniform1fValues]
  · have hpre := (preludeCalls_observations ⟨state.contextID⟩
      (resolveLocations (getPcp g state)) state g).2.1 .uid
    rw [uniform1iValues_append, uniform1iValues_append, hpre,
      uniform1iValues_drawPrimitiveSets]
    simp [uniform1iValues]
  · have hpre := (preludeCalls_observations ⟨state.contextID⟩
      (resolveLocations (getPcp g state)) state g).2.1 .order
    rw [uniform1iValues_append, uniform1iValues_append, hpre,
      uniform1iValues_drawPrimitiveSets]
    simp [uniform1iValues]
  · have hpre := (preludeCalls_observations ⟨state.contextID⟩
      (resolveLocations (getPcp g state)) state g).2.2
    rw [drawnPrimitives_append, drawnPrimitives_append, hpre,
      drawnPrimitives_drawPrimitiveSets]
    simp [drawnPrimitives]
  · intro c hc
    rw [applyTileKey_some, applyBirthTime_some] at hc
    simp only [List.mem_append, List.mem_cons, List.mem_singleton, drawPrimitiveSets,
      List.mem_map, List.not_mem_nil, or_false] at hc
    rcases hc with ((hc | hc) | hc) | hc
    · split at hc
      · rw [List.mem_singleton] at hc
        subst hc
        simp [GLCall.writes]
      · exact absurd hc (List.not_mem_nil _)
    · split at hc
      · rw [List.mem_singleton] at hc
        subst hc
        simp [GLCall.writes]
      · exact absurd hc (List.not_mem_nil _)
    · rcases hc with hc | hc | hc <;> subst hc <;> simp [GLCall.writes]
    · obtain ⟨a, _, ha⟩ := hc
      cases a <;> simp at ha <;> subst ha <;> simp [GLCall.writes]

/-- C3, at a concrete input: a tile list of one invisible layer and one
visible layer of opacity zero. -/
theorem C3_fallback_pass_witness :
    uniform1fValues .opacity (drawPrimitivesImplementation
        (sampleGeometry [sampleLayer 10 false GLfloat.one, sampleLayer 11 true GLfloat.zero])
        idleFrame sampleState).calls = [GLfloat.one]
    ∧ uniform1iValues .uid (drawPrimitivesImplementation
        (sampleGeometry [sampleLayer 10 false GLfloat.one, sampleLayer 11 true GLfloat.zero])
        idleFrame sampleState).calls = [-1]
    ∧ uniform1iValues .order (drawPrimitivesImplementation
        (sampleGeometry [sampleLayer 10 false GLfloat.one, sampleLayer 11 true GLfloat.zero])
        idleFrame sampleState).calls = [0] :=
  have h := C3_fallback_pass
    (sampleGeometry [sampleLayer 10 false GLfloat.one, sampleLayer 11 true GLfloat.zero])
    idleFrame sampleState fullProgram rfl rfl (by decide) (by decide) (by decide) (by decide)
  ⟨h.2.1, h.2.2.1, h.2.2.2.1⟩

/-! ## Opacity coalescing -/

theorem drawnLayers_cons (i : Layer) (rest : List Layer) :
    drawnLayers (i :: rest)
      = if i.isDrawn then i :: drawnLayers rest else drawnLayers rest := by
  unfold drawnLayers
  cases h : i.isDrawn <;> simp [h]

/-- For a drawn layer, and a previous opacity that is the initial `-1.0f` or
above zero, the test `opacity != prevOpacity` of line 187 is plain
inequality. -/
theorem ne_prev_iff {i : Layer} {prev : GLfloat} (hd : i.isDrawn = true)
    (hprev : prev = GLfloat.negOne ∨ prev.gt GLfloat.zero = true) :
    i.imageLayer.opacity.ne prev = true ↔ prev ≠ i.imageLayer.opacity := by
  unfold Layer.isDrawn at hd
  rw [Bool.and_eq_true] at hd
  rcases hprev with h | h
  · subst h
    constructor
    · intro _ hc
      rw [← hc] at hd
      exact absurd hd.2 (by decide)
    · intro _
      exact GLfloat.ne_negOne_of_gt_zero hd.2
  · rw [GLfloat.ne_iff_of_gt_zero hd.2 h]
    exact ⟨fun a b => a b.symm, fun a b => a b.symm⟩

theorem layerLoop_opacity_values (e : GL2Extensions) (p : PerContextProgram)
    (loc : Locations) (primitives : List (Option DrawElements)) (layers : List Layer)
    (v : LoopVars) (hopacity : loc.opacity ≥ 0)
    (hprev : v.prevOpacity = GLfloat.negOne ∨ v.prevOpacity.gt GLfloat.zero = true) :
    uniform1fValues .opacity (layerLoop (some e) (some p) loc primitives layers v).1.calls
      = (List.destutter' (fun a b => a ≠ b) v.prevOpacity
          ((drawnLayers layers).map (fun i => i.imageLayer.opacity))).tail := by
  induction layers generalizing v with
  | nil => rfl
  | cons i rest ih =>
    cases h : i.isDrawn with
    | false =>
      rw [layerLoop_cons_skipped _ _ _ _ _ _ _ h, ih v hprev, drawnLayers_cons]
      simp [h]
    | true =>
      rw [layerLoop_cons_drawn _ _ _ _ _ _ _ h, drawnLayers_cons]
      simp only [h, if_true, List.map_cons, uniform1fValues_append, uniform1fValues_bindCalls,
        uniform1fValues_drawPrimitiveSets, uniform1fValues_opacity_uniformCalls,
        List.nil_append, List.append_nil]
      have hpos : i.imageLayer.opacity.gt GLfloat.zero = true := by
        unfold Layer.isDrawn at h
        rw [Bool.and_eq_true] at h
        exact h.2
      by_cases hne : v.prevOpacity ≠ i.imageLayer.opacity
      · have hup : uploadsOpacity loc i.imageLayer v.prevOpacity = true := by
          simp [uploadsOpacity, hopacity, (ne_prev_iff h hprev).2 hne]
        have hnext : (nextVars loc i.imageLayer v).prevOpacity = i.imageLayer.opacity := by
          simp [nextVars, hup]
        rw [ih _ (by rw [hnext]; exact Or.inr hpos), hnext,
          List.destutter'_cons_pos _ hne]
        simp only [hup, if_true, List.tail_cons]
        have hhead : ∀ l : List GLfloat,
            List.destutter' (fun a b => a ≠ b) i.imageLayer.opacity l
              = i.imageLayer.opacity
                :: (List.destutter' (fun a b => a ≠ b) i.imageLayer.opacity l).tail := by
          intro l
          cases l with
          | nil => rfl
          | cons b l =>
            rw [List.destutter'_cons]
            split
            · rfl
            · induction l with
              | nil => rfl
              | cons c l ihl =>
                rw [List.destutter'_cons]
                split
                · rfl
                · exact ihl
        rw [List.singleton_append]
        exact (hhead _).symm
      · have hup : uploadsOpacity loc i.imageLayer v.prevOpacity = false := by
          have := (ne_prev_iff h hprev).not.2 hne
          simp [uploadsOpacity, this]
        have hnext : (nextVars loc i.imageLayer v).prevOpacity = v.prevOpacity := by
          simp [nextVars, hup]
        rw [ih _ (by rw [hnext]; exact hprev), hnext, List.destutter'_cons_neg _ hne]
        simp [hup]


theorem length_splitByLoop (l : List GLfloat) (a : GLfloat) (g : List GLfloat)
    (gs : List (List GLfloat)) :
    (List.splitBy.loop (fun x y => x == y) l a g gs).length
      = gs.length + (List.destutter' (fun x y => x ≠ y) a l).length := by
  induction l generalizing a g gs with
  | nil => simp [List.splitBy.loop]
  | cons b l ih =>
    rw [List.splitBy.loop, List.destutter'_cons]
    by_cases hab : a = b
    · subst hab
      simp [ih]
    · have : (a == b) = false := by simpa using hab
      simp [this, hab, ih]
      omega

/-- The values left after dropping repeats of the previous value are as many
as the maximal runs of equal consecutive values. -/
theorem length_destutter_eq_runs (l : List GLfloat) :
    (List.destutter (fun x y => x ≠ y) l).length
      = (List.splitBy (fun x y => x == y) l).length := by
  cases l with
  | nil => rfl
  | cons a l =>
    rw [List.destutter_cons', List.splitBy, length_splitByLoop]
    simp


/-- C4. Opacity coalescing in the layer loop: with a program bound and the
opacity uniform found, (1) the opacity values the loop uploads are the
opacities of the drawn layers with every value that repeats its predecessor
dropped, (2) their number is the number of maximal runs of equal consecutive
opacities among the drawn layers, (3) for one drawn layer the upload happens
exactly when its opacity differs (C++ `!=`) from `prevOpacity`, which then
becomes that opacity, and (4) for five visible layers with the opacities
0.5, 0.5, 0.8, 0.8, 0.8 there are exactly two uploads, 0.5 before the uid of
the first layer and 0.8 before the uid of the third. -/
theorem C4_opacity_coalescing (g : MPGeometry) (state : OsgState) (p : PerContextProgram)
    (layers : List Layer)
    (hglsl : g.supportsGLSL = true) (hpcp : state.lastAppliedProgramObject = some p)
    (hopacity : p.getUniformLocation .opacity ≥ 0) :
    uniform1fValues .opacity (layerLoop (getExt g state) (getPcp g state)
        (resolveLocations (getPcp g state)) g.primitives layers LoopVars.init).1.calls
      = List.destutter (fun a b => a ≠ b)
          ((drawnLayers layers).map (fun i => i.imageLayer.opacity))
    ∧ (uniform1fValues .opacity (layerLoop (getExt g state) (getPcp g state)
        (resolveLocations (getPcp g state)) g.primitives layers LoopVars.init).1.calls).length
      = (List.splitBy (fun a b => a == b)
          ((drawnLayers layers).map (fun i => i.imageLayer.opacity))).length
    ∧ (∀ (i : Layer) (v : LoopVars), i.isDrawn = true →
        uniform1fValues .opacity (layerBody (getExt g state) (getPcp g state)
            (resolveLocations (getPcp g state)) g.primitives i v).1.calls
          = (if i.imageLayer.opacity.ne v.prevOpacity then [i.imageLayer.opacity] else [])
        ∧ (layerBody (getExt g state) (getPcp g state)
            (resolveLocations (getPcp g state)) g.primitives i v).2.prevOpacity
          = (if i.imageLayer.opacity.ne v.prevOpacity then i.imageLayer.opacity
              else v.prevOpacity))
    ∧ uniform1fValues .opacity (layerLoop (getExt (sampleGeometry []) sampleState)
          (getPcp (sampleGeometry []) sampleState)
          (resolveLocations (getPcp (sampleGeometry []) sampleState))
          (sampleGeometry []).primitives fiveLayers LoopVars.init).1.calls
        = [GLfloat.half, GLfloat.pointEight]
    ∧ (layerLoop (getExt (sampleGeometry []) sampleState)
          (getPcp (sampleGeometry []) sampleState)
          (resolveLocations (getPcp (sampleGeometry []) sampleState))
          (sampleGeometry []).primitives fiveLayers LoopVars.init).1.calls.filter
          (fun c => c.writes .opacity || c.writes .uid)
        = [GLCall.glUniform1f .opacity 2 GLfloat.half, GLCall.glUniform1i .uid 3 10,
           GLCall.glUniform1i .uid 3 11,
           GLCall.glUniform1f .opacity 2 GLfloat.pointEight, GLCall.glUniform1i .uid 3 12,
           GLCall.glUniform1i .uid 3 13, GLCall.glUniform1i .uid 3 14] := by
  have hloop : uniform1fValues .opacity (layerLoop (getExt g state) (getPcp g state)
        (resolveLocations (getPcp g state)) g.primitives layers LoopVars.init).1.calls
      = List.destutter (fun a b => a ≠ b)
          ((drawnLayers layers).map (fun i => i.imageLayer.opacity)) := by
    rw [getExt_of_glsl state hglsl, getPcp_of_glsl hglsl hpcp,
      layerLoop_opacity_values _ _ _ _ _ _ hopacity (Or.inl rfl)]
    induction layers with
    | nil => rfl
    | cons i rest ih =>
      rw [drawnLayers_cons]
      cases h : i.isDrawn with
      | false => simpa using ih
      | true =>
        simp only [if_true, List.map_cons, List.destutter_cons']
        have hne : LoopVars.init.prevOpacity ≠ i.imageLayer.opacity :=
          (ne_prev_iff h (Or.inl rfl)).1
            ((ne_prev_iff h (Or.inl rfl)).2 (by
              intro hc
              unfold Layer.isDrawn at h
              rw [Bool.and_eq_true, ← hc] at h
              exact absurd h.2 (by decide)))
        rw [List.destutter'_cons_pos _ hne]
        rfl
  refine ⟨hloop, ?_, ?_, by decide, by decide⟩
  · rw [hloop, length_destutter_eq_runs]
  · intro i v hd
    rw [getExt_of_glsl state hglsl, getPcp_of_glsl hglsl hpcp, layerBody_bound]
    have ho : (resolveLocations (some p)).opacity ≥ 0 := hopacity
    simp only [hd, if_true, uniform1fValues_append, uniform1fValues_bindCalls,
      uniform1fValues_drawPrimitiveSets, uniform1fValues_opacity_uniformCalls,
      List.nil_append, List.append_nil, nextVars, uploadsOpacity, ho, decide_True,
      Bool.true_and, and_self]

/-- C4, at the input of the claim: five visible layers with the opacities
0.5, 0.5, 0.8, 0.8, 0.8 give the two uploads 0.5 and 0.8. -/
theorem C4_opacity_coalescing_witness :
    uniform1fValues .opacity (layerLoop (getExt (sampleGeometry []) sampleState)
        (getPcp (sampleGeometry []) sampleState)
        (resolveLocations (getPcp (sampleGeometry []) sampleState))
        (sampleGeometry []).primitives fiveLayers LoopVars.init).1.calls
      = [GLfloat.half, GLfloat.pointEight]
    ∧ (uniform1fValues .opacity (layerLoop (getExt (sampleGeometry []) sampleState)
        (getPcp (sampleGeometry []) sampleState)
        (resolveLocations (getPcp (sampleGeometry []) sampleState))
        (sampleGeometry []).primitives fiveLayers LoopVars.init).1.calls).length = 2 :=
  have h := C4_opacity_coalescing (sampleGeometry []) sampleState fullProgram fiveLayers
    rfl rfl (by decide)
  ⟨h.1.trans (by decide), h.2.1.trans (by decide)⟩


/-! ## Validation -/

/-- Every primitive set that the loop of `validate` leaves behind, beyond
those already visited, is a triangle list with an index count divisible
by 3. -/
theorem validateLoop_mode_count (numVerts : Nat) (visited rest : List DrawElements)
    (hv : ∀ de ∈ visited, de.mode = GL_TRIANGLES ∧ de.indices.length % 3 = 0) :
    ∀ de ∈ validateLoop numVerts visited rest,
      de.mode = GL_TRIANGLES ∧ de.indices.length % 3 = 0 := by
  induction rest generalizing visited with
  | nil => simpa [validateLoop] using hv
  | cons d rest ih =>
    unfold validateLoop
    split
    · simp
    · rename_i hmode
      split
      · apply ih
        intro de hde
        rcases List.mem_append.1 hde with h | h
        · exact hv de h
        · rw [List.mem_singleton] at h
          subst h
          refine ⟨not_not.1 hmode, ?_⟩
          simp only [DrawElements.resize, List.length_take]
          omega
      · rename_i hcount
        split
        · simp
        · apply ih
          intro de hde
          rcases List.mem_append.1 hde with h | h
          · exact hv de h
          · rw [List.mem_singleton] at h
            subst h
            exact ⟨not_not.1 hmode, not_not.1 hcount⟩

/-- The loop of `validate` clears the list when it reaches a primitive set
with an index count divisible by 3 that holds an index out of bounds. -/
theorem validateLoop_clears (numVerts : Nat) (visited rest : List DrawElements)
    (h : ∃ de ∈ rest, de.indices.length % 3 = 0 ∧ ∃ index ∈ de.indices, numVerts ≤ index) :
    validateLoop numVerts visited rest = [] := by
  induction rest generalizing visited with
  | nil =>
    obtain ⟨de, hde, _⟩ := h
    exact absurd hde (List.not_mem_nil _)
  | cons d rest ih =>
    obtain ⟨de, hde, hcount, index, hindex, hge⟩ := h
    unfold validateLoop
    split
    · rfl
    · split
      · rename_i hc
        apply ih
        rcases List.mem_cons.1 hde with e | e
        · subst e
          exact absurd hcount hc
        · exact ⟨de, e, hcount, index, hindex, hge⟩
      · split
        · rfl
        · rename_i hb
          apply ih
          rcases List.mem_cons.1 hde with e | e
          · subst e
            exact absurd (by
              unfold hasIndexOutOfBounds
              rw [List.any_eq_true]
              exact ⟨index, hindex, by simpa using hge⟩) hb
          · exact ⟨de, e, hcount, index, hindex, hge⟩

/-- On triangle lists whose indices are all in bounds, the loop of
`validate` keeps every set and cuts each one to a multiple of 3 indices. -/
theorem validateLoop_heals (numVerts : Nat) (visited rest : List DrawElements)
    (h : ∀ de ∈ rest, de.mode = GL_TRIANGLES ∧ ∀ index ∈ de.indices, index < numVerts) :
    validateLoop numVerts visited rest
      = visited ++ rest.map (fun de =>
          ⟨de.mode, de.indices.take (de.indices.length - de.indices.length % 3)⟩) := by
  induction rest generalizing visited with
  | nil => simp [validateLoop]
  | cons d rest ih =>
    have hd := h d (List.mem_cons_self _ _)
    have hrest : ∀ de ∈ rest, de.mode = GL_TRIANGLES ∧ ∀ index ∈ de.indices, index < numVerts :=
      fun de hde => h de (List.mem_cons_of_mem _ hde)
    unfold validateLoop
    split
    · rename_i hm
      exact absurd hd.1 hm
    · split
      · rw [ih _ hrest]
        simp [DrawElements.resize]
      · rename_i hc
        split
        · rename_i hb
          unfold hasIndexOutOfBounds at hb
          rw [List.any_eq_true] at hb
          obtain ⟨index, hi, hge⟩ := hb
          have := hd.2 index hi
          simp at hge
          omega
        · rw [ih _ hrest]
          have h0 : d.indices.length % 3 = 0 := not_not.1 hc
          simp [h0]

/-- C5. Postcondition of `validate`, at the input where it fails: with 3
vertices and one triangle list of the four indices 99, 0, 1, 2, the index
count is not a multiple of 3, so the set is cut to 99, 0, 1 and its indices
are not checked: the set that remains holds the index 99, which is not below
the vertex count.  The other two invariants do hold of every remaining set,
for every geometry. -/
theorem C5_validate_leaves_index_out_of_bounds :
    validate 3 [⟨GL_TRIANGLES, [99, 0, 1, 2]⟩] = [⟨GL_TRIANGLES, [99, 0, 1]⟩]
    ∧ ¬ (∀ de ∈ validate 3 [⟨GL_TRIANGLES, [99, 0, 1, 2]⟩],
          de.mode = GL_TRIANGLES ∧ de.indices.length % 3 = 0
            ∧ ∀ index ∈ de.indices, index < 3)
    ∧ (∀ (numVerts : Nat) (primitives : List DrawElements),
        ∀ de ∈ validate numVerts primitives,
          de.mode = GL_TRIANGLES ∧ de.indices.length % 3 = 0) := by
  refine ⟨by decide, by decide, ?_⟩
  intro numVerts primitives
  exact validateLoop_mode_count numVerts [] primitives (by simp)

/-- C6, refuted as stated: with 3 vertices and one triangle list of the four
indices 0, 1, 2, 99, a primitive set contains an index that is not below the
vertex count, and the list is not empty after `validate`: the set is cut to
0, 1, 2 and kept. -/
theorem C6_out_of_bounds_not_always_cleared :
    (∃ de ∈ [(⟨GL_TRIANGLES, [0, 1, 2, 99]⟩ : DrawElements)],
        ∃ index ∈ de.indices, index ≥ 3)
    ∧ validate 3 [⟨GL_TRIANGLES, [0, 1, 2, 99]⟩] = [⟨GL_TRIANGLES, [0, 1, 2]⟩]
    ∧ validate 3 [⟨GL_TRIANGLES, [0, 1, 2, 99]⟩] ≠ [] := by
  decide

/-- C6, amended. When some primitive set whose index count is divisible
by 3 contains an index that is not below the vertex count, the primitive-set
list is empty after `validate`. -/
theorem C6_validate_clears_on_out_of_bounds (numVerts : Nat) (primitives : List DrawElements)
    (h : ∃ de ∈ primitives,
      de.indices.length % 3 = 0 ∧ ∃ index ∈ de.indices, index ≥ numVerts) :
    validate numVerts primitives = [] :=
  validateLoop_clears numVerts [] primitives h

/-- C6 amended, at a concrete input: the second of three sets has six
indices of which one is out of bounds. -/
theorem C6_validate_clears_on_out_of_bounds_witness :
    validate 3 [⟨GL_TRIANGLES, [0, 1, 2, 2]⟩, ⟨GL_TRIANGLES, [0, 1, 2, 2, 1, 3]⟩,
      ⟨GL_TRIANGLES, [0, 1, 2]⟩] = [] :=
  C6_validate_clears_on_out_of_bounds 3 _
    ⟨⟨GL_TRIANGLES, [0, 1, 2, 2, 1, 3]⟩, by decide, by decide, 3, by decide, by decide⟩

/-- C7. Self-heal of `validate`: when every primitive set is a triangle list
and every index is below the vertex count, `validate` keeps the same number
of sets in the same order, and a set of N indices ends with exactly its
first N - (N mod 3) indices; a geometry whose index counts are all
divisible by 3 as well is left unchanged, and so is an empty primitive-set
list. -/
theorem C7_validate_self_heal (numVerts : Nat) (primitives : List DrawElements)
    (h : ∀ de ∈ primitives,
      de.mode = GL_TRIANGLES ∧ ∀ index ∈ de.indices, index < numVerts) :
    validate numVerts primitives
      = primitives.map (fun de =>
          ⟨de.mode, de.indices.take (de.indices.length - de.indices.length % 3)⟩)
    ∧ (validate numVerts primitives).length = primitives.length
    ∧ ((∀ de ∈ primitives, de.indices.length % 3 = 0) →
        validate numVerts primitives = primitives)
    ∧ validate numVerts [] = [] := by
  have hv : validate numVerts primitives
      = primitives.map (fun de =>
          ⟨de.mode, de.indices.take (de.indices.length - de.indices.length % 3)⟩) := by
    unfold validate
    simpa using validateLoop_heals numVerts [] primitives h
  refine ⟨hv, by rw [hv, List.length_map], ?_, rfl⟩
  intro h3
  rw [hv]
  conv_rhs => rw [← List.map_id primitives]
  apply List.map_congr_left
  intro de hde
  simp [h3 de hde]

/-- C7, at a concrete input: sets of 3, 5 and 7 indices over 3 vertices end
with 3, 3 and 6 indices. -/
theorem C7_validate_self_heal_witness :
    validate 3 [⟨GL_TRIANGLES, [0, 1, 2]⟩, ⟨GL_TRIANGLES, [2, 1, 0, 1, 1]⟩,
        ⟨GL_TRIANGLES, [0, 0, 1, 1, 2, 2, 0]⟩]
      = [⟨GL_TRIANGLES, [0, 1, 2]⟩, ⟨GL_TRIANGLES, [2, 1, 0]⟩,
          ⟨GL_TRIANGLES, [0, 0, 1, 1, 2, 2]⟩] :=
  (C7_validate_self_heal 3 [⟨GL_TRIANGLES, [0, 1, 2]⟩, ⟨GL_TRIANGLES, [2, 1, 0, 1, 1]⟩,
    ⟨GL_TRIANGLES, [0, 0, 1, 1, 2, 2, 0]⟩] (by decide)).1

/-! ## Uniforms that are not found -/

theorem writesOnlyFound_skip (u : UniformName) (loc : Locations) :
    Run.skip.writesOnlyFound u loc := by
  intro c hc
  exact absurd hc (List.not_mem_nil _)

theorem writesOnlyFound_emit (u : UniformName) (loc : Locations) (c : GLCall)
    (h : c.writes u = false) : (Run.emit c).writesOnlyFound u loc := by
  intro x hx hw
  rw [Run.emit, List.mem_singleton] at hx
  subst hx
  rw [h] at hw
  exact absurd hw Bool.false_ne_true

theorem writesOnlyFound_extCall (u : UniformName) (loc : Locations)
    (ext : Option GL2Extensions) (c : GLCall)
    (h : c.writes u = true → u = .texMatrix ∨ loc.get u ≥ 0) :
    (extCall ext c).writesOnlyFound u loc := by
  intro x hx hw
  cases ext with
  | none => exact absurd hx (List.not_mem_nil _)
  | some e =>
    rw [extCall_some, List.mem_singleton] at hx
    subst hx
    exact h hw

theorem writesOnlyFound_seq {u : UniformName} {loc : Locations} {a b : Run}
    (ha : a.writesOnlyFound u loc) (hb : b.writesOnlyFound u loc) :
    (a.seq b).writesOnlyFound u loc := by
  intro c hc hw
  unfold Run.seq at hc
  split at hc
  · exact ha c hc hw
  · rcases List.mem_append.1 hc with h | h
    · exact ha c h hw
    · exact hb c h hw

theorem writesOnlyFound_drawPrimitiveSets (u : UniformName) (loc : Locations)
    (primitives : List (Option DrawElements)) :
    (drawPrimitiveSets primitives).writesOnlyFound u loc := by
  intro c hc hw
  unfold drawPrimitiveSets at hc
  obtain ⟨a, _, ha⟩ := List.mem_map.1 hc
  cases a <;> simp at ha <;> subst ha <;> simp [GLCall.writes] at hw

/-- A guarded upload `if ( location >= 0 ) ext->glUniform...` writes only a
found uniform. -/
theorem writesOnlyFound_guarded (u w : UniformName) (loc : Locations)
    (ext : Option GL2Extensions) (c : GLCall) (cond : Prop) [Decidable cond]
    (hc : ∀ x, c.writes x = true → x = w) (hcond : cond → loc.get w ≥ 0) :
    (if cond then extCall ext c else Run.skip).writesOnlyFound u loc := by
  split
  · rename_i h
    apply writesOnlyFound_extCall
    intro hw
    rw [hc u hw]
    exact Or.inr (hcond h)
  · exact writesOnlyFound_skip u loc

theorem writesOnlyFound_applyUniformsAndDraw (u : UniformName) (ext : Option GL2Extensions)
    (loc : Locations) (primitives : List (Option DrawElements)) (imageLayer : ImageLayer)
    (v : LoopVars) :
    (applyUniformsAndDraw ext loc primitives imageLayer v).1.writesOnlyFound u loc := by
  unfold applyUniformsAndDraw
  simp only
  refine writesOnlyFound_seq ?_ (writesOnlyFound_seq ?_ (writesOnlyFound_seq ?_
    (writesOnlyFound_drawPrimitiveSets u loc primitives)))
  · apply writesOnlyFound_guarded u .opacity
    · intro x hx
      simp only [GLCall.writes, beq_iff_eq] at hx
      exact hx.symm
    · intro h
      simp [uploadsOpacity] at h
      exact h.1
  · apply writesOnlyFound_guarded u .uid
    · intro x hx
      simp only [GLCall.writes, beq_iff_eq] at hx
      exact hx.symm
    · exact fun h => h
  · apply writesOnlyFound_guarded u .order
    · intro x hx
      simp only [GLCall.writes, beq_iff_eq] at hx
      exact hx.symm
    · exact fun h => h

/-- Every upload the body of the loop issues goes to the texture matrix or
to a uniform whose location is found. -/
theorem writesOnlyFound_layerBody (u : UniformName) (ext : Option GL2Extensions)
    (pcp : Option PerContextProgram) (loc : Locations)
    (primitives : List (Option DrawElements)) (i : Layer) (v : LoopVars) :
    (layerBody ext pcp loc primitives i v).1.writesOnlyFound u loc := by
  have h1 : (Run.emit (GLCall.setActiveTextureUnit 0)).writesOnlyFound u loc :=
    writesOnlyFound_emit u loc _ rfl
  have h2 : ∀ t : Option Texture, (match t with
      | some t => Run.emit (GLCall.texApply t)
      | none => Run.emit (GLCall.warn Warning.noTexture)).writesOnlyFound u loc := by
    intro t
    cases t <;> exact writesOnlyFound_emit u loc _ rfl
  have h3 : ∀ m : Option RefMatrixf, (match m with
      | some m => extCall ext (GLCall.glUniformMatrix4fv .texMatrix loc.texMatrix m)
      | none => Run.emit (GLCall.warn Warning.noTexMatrix)).writesOnlyFound u loc := by
    intro m
    cases m with
    | none => exact writesOnlyFound_emit u loc _ rfl
    | some m =>
      apply writesOnlyFound_extCall
      intro hw
      left
      simp only [GLCall.writes, beq_iff_eq] at hw
      exact hw.symm
  unfold layerBody
  by_cases hd : (i.imageLayer.visible && i.imageLayer.opacity.gt GLfloat.zero) = true
  · simp only [hd, if_true]
    cases pcp with
    | none => exact writesOnlyFound_seq h1 (writesOnlyFound_seq (h2 _) (h3 _))
    | some p =>
      exact writesOnlyFound_seq h1 (writesOnlyFound_seq (h2 _) (writesOnlyFound_seq (h3 _)
        (writesOnlyFound_applyUniformsAndDraw u ext loc primitives i.imageLayer v)))
  · simp only [hd]
    exact writesOnlyFound_skip u loc

theorem writesOnlyFound_layerLoop (u : UniformName) (ext : Option GL2Extensions)
    (pcp : Option PerContextProgram) (loc : Locations)
    (primitives : List (Option DrawElements)) (layers : List Layer) (v : LoopVars) :
    (layerLoop ext pcp loc primitives layers v).1.writesOnlyFound u loc := by
  induction layers generalizing v with
  | nil => exact writesOnlyFound_skip u loc
  | cons i rest ih =>
    unfold layerLoop
    exact writesOnlyFound_seq (writesOnlyFound_layerBody u ext pcp loc primitives i v) (ih _)

theorem writesOnlyFound_fallback (u : UniformName) (ext : Option GL2Extensions)
    (loc : Locations) (primitives : List (Option DrawElements)) (layersDrawn : Nat) :
    (fallback ext loc primitives layersDrawn).writesOnlyFound u loc := by
  unfold fallback
  split
  · simp only
    refine writesOnlyFound_seq ?_ (writesOnlyFound_seq ?_ (writesOnlyFound_seq ?_
      (writesOnlyFound_drawPrimitiveSets u loc primitives)))
    · apply writesOnlyFound_guarded u .opacity
      · intro x hx
        simp only [GLCall.writes, beq_iff_eq] at hx
        exact hx.symm
      · exact fun h => h
    · apply writesOnlyFound_guarded u .uid
      · intro x hx
        simp only [GLCall.writes, beq_iff_eq] at hx
        exact hx.symm
      · exact fun h => h
    · apply writesOnlyFound_guarded u .order
      · intro x hx
        simp only [GLCall.writes, beq_iff_eq] at hx
        exact hx.symm
      · exact fun h => h
  · exact writesOnlyFound_skip u loc

/-- Every upload of a draw call goes to the texture matrix or to a uniform
whose resolved location is not negative. -/
theorem writes_draw (g : MPGeometry) (frame : MapFrame) (state : OsgState)
    (u : UniformName) (c : GLCall)
    (hc : c ∈ (drawPrimitivesImplementation g frame state).calls) (hw : c.writes u = true) :
    u = .texMatrix ∨ (resolveLocations (getPcp g state)).get u ≥ 0 := by
  have hkey : (applyTileKey (getExt g state) (resolveLocations (getPcp g state))
      g.tileKeyValue).writesOnlyFound u (resolveLocations (getPcp g state)) := by
    unfold applyTileKey
    apply writesOnlyFound_guarded u .tileKey
    · intro x hx
      simp only [GLCall.writes, beq_iff_eq] at hx
      exact hx.symm
    · exact fun h => h
  have hbirth : (applyBirthTime (getExt g state) (resolveLocations (getPcp g state))
      state g.pcd).1.writesOnlyFound u (resolveLocations (getPcp g state)) := by
    unfold applyBirthTime
    split
    · rename_i hl
      apply writesOnlyFound_extCall
      intro hw2
      have : u = .birthTime := by
        simp only [GLCall.writes, beq_iff_eq] at hw2
        exact hw2.symm
      rw [this]
      exact Or.inr hl
    · exact writesOnlyFound_skip u _
  exact writesOnlyFound_seq hkey (writesOnlyFound_seq hbirth (writesOnlyFound_seq
    (writesOnlyFound_layerLoop u _ _ _ _ _ _) (writesOnlyFound_fallback u _ _ _ _))) c hc hw

/-- C8. Not-found uniform locations, at the input where the claim fails: a
program is bound that has no texture-matrix uniform (location -1) and the
tile list holds one visible layer of opacity 1 with a texture matrix; the
draw call still issues `glUniformMatrix4fv` for the texture matrix, with the
location -1, since line 176 does not test the location.  For the other five
uniforms the claim holds of every draw call: a negative location means no
upload to that uniform. -/
theorem C8_texMatrix_written_at_negative_location :
    (resolveLocations (getPcp (sampleGeometry [sampleLayer 10 true GLfloat.one])
        ⟨0, some noTexMatrixProgram, none⟩)).get .texMatrix < 0
    ∧ GLCall.glUniformMatrix4fv .texMatrix (-1) 8
        ∈ (drawPrimitivesImplementation (sampleGeometry [sampleLayer 10 true GLfloat.one])
            idleFrame ⟨0, some noTexMatrixProgram, none⟩).calls
    ∧ ¬ (∀ c ∈ (drawPrimitivesImplementation (sampleGeometry [sampleLayer 10 true GLfloat.one])
            idleFrame ⟨0, some noTexMatrixProgram, none⟩).calls,
          c.writes .texMatrix = false)
    ∧ (∀ (g : MPGeometry) (frame : MapFrame) (state : OsgState) (u : UniformName),
        u ≠ .texMatrix → (resolveLocations (getPcp g state)).get u < 0 →
        ∀ c ∈ (drawPrimitivesImplementation g frame state).calls, c.writes u = false) := by
  refine ⟨by decide, by decide, by decide, ?_⟩
  intro g frame state u hu hneg c hc
  cases hw : c.writes u with
  | false => rfl
  | true =>
    rcases writes_draw g frame state u c hc hw with h | h
    · exact absurd h hu
    · omega


/-! ## Validation: idempotence and non-triangle sets -/

/-- The loop of `validate` clears the list when it reaches a primitive set
that is not a triangle list. -/
theorem validateLoop_clears_non_triangles (numVerts : Nat) (visited rest : List DrawElements)
    (h : ∃ de ∈ rest, de.mode ≠ GL_TRIANGLES) :
    validateLoop numVerts visited rest = [] := by
  induction rest generalizing visited with
  | nil =>
    obtain ⟨de, hde, _⟩ := h
    exact absurd hde (List.not_mem_nil _)
  | cons d rest ih =>
    obtain ⟨de, hde, hmode⟩ := h
    unfold validateLoop
    split
    · rfl
    · rename_i hm
      have hrest : ∃ de ∈ rest, de.mode ≠ GL_TRIANGLES := by
        rcases List.mem_cons.1 hde with e | e
        · subst e
          exact absurd hmode hm
        · exact ⟨de, e, hmode⟩
      split
      · exact ih _ hrest
      · split
        · rfl
        · exact ih _ hrest

/-- A second run of `validate` changes nothing when the first run left only
indices below the vertex count. -/
theorem validate_idem_of_in_bounds (numVerts : Nat) (primitives : List DrawElements)
    (h : ∀ de ∈ validate numVerts primitives, ∀ index ∈ de.indices, index < numVerts) :
    validate numVerts (validate numVerts primitives) = validate numVerts primitives := by
  have hmc := validateLoop_mode_count numVerts [] primitives (by simp)
  have hheal := validateLoop_heals numVerts [] (validate numVerts primitives)
    (fun de hde => ⟨(hmc de hde).1, h de hde⟩)
  rw [List.nil_append] at hheal
  have hid : (validate numVerts primitives).map (fun de =>
      (⟨de.mode, de.indices.take (de.indices.length - de.indices.length % 3)⟩ : DrawElements))
      = validate numVerts primitives := by
    conv_rhs => rw [← List.map_id (validate numVerts primitives)]
    apply List.map_congr_left
    intro de hde
    simp [(hmc de hde).2]
  exact (hheal.trans hid : validateLoop numVerts [] (validate numVerts primitives)
    = validate numVerts primitives)

/-- C11. Validation is idempotent, at the input where it fails: with 3
vertices and one triangle list of the indices 99, 0, 1, 2, the first run
cuts the set to 99, 0, 1 without checking its indices, and the second run
finds the index 99 out of bounds and clears the list, so the second run does
not leave the primitive sets as the first run left them.  A second run is a
no-op whenever the first run left only indices below the vertex count. -/
theorem C11_validate_second_run_clears :
    validate 3 [⟨GL_TRIANGLES, [99, 0, 1, 2]⟩] = [⟨GL_TRIANGLES, [99, 0, 1]⟩]
    ∧ validate 3 (validate 3 [⟨GL_TRIANGLES, [99, 0, 1, 2]⟩]) = []
    ∧ validate 3 (validate 3 [⟨GL_TRIANGLES, [99, 0, 1, 2]⟩])
        ≠ validate 3 [⟨GL_TRIANGLES, [99, 0, 1, 2]⟩]
    ∧ (∀ (numVerts : Nat) (primitives : List DrawElements),
        (∀ de ∈ validate numVerts primitives, ∀ index ∈ de.indices, index < numVerts) →
        validate numVerts (validate numVerts primitives) = validate numVerts primitives) := by
  refine ⟨by decide, by decide, by decide, ?_⟩
  intro numVerts primitives h
  exact validate_idem_of_in_bounds numVerts primitives h

/-- C12. Non-triangle primitives: when some primitive set has a mode other
than `GL_TRIANGLES`, the primitive-set list is empty after `validate`,
whatever the other primitive sets contain. -/
theorem C12_validate_clears_on_non_triangles (numVerts : Nat)
    (primitives : List DrawElements)
    (h : ∃ de ∈ primitives, de.mode ≠ GL_TRIANGLES) :
    validate numVerts primitives = [] :=
  validateLoop_clears_non_triangles numVerts [] primitives h

/-- C12, at a concrete input: a line strip (mode 3) after a triangle list
with a stray index and before a list with an index out of bounds. -/
theorem C12_validate_clears_on_non_triangles_witness :
    validate 3 [⟨GL_TRIANGLES, [0, 1, 2, 2]⟩, ⟨3, [0, 1, 2]⟩, ⟨GL_TRIANGLES, [0, 1, 7]⟩] = [] :=
  C12_validate_clears_on_non_triangles 3 _ ⟨⟨3, [0, 1, 2]⟩, by decide, by decide⟩


/-! ## Resize and the no-change path -/

theorem length_pcdGrow (pcd : List PerContextData) (size : Nat) :
    (pcdGrow pcd size).length = max pcd.length size := by
  simp only [pcdGrow, List.length_append, List.length_replicate]
  omega

theorem getElem?_pcdGrow_of_lt (pcd : List PerContextData) (size i : Nat)
    (h : i < pcd.length) : (pcdGrow pcd size)[i]? = pcd[i]? := by
  simp only [pcdGrow]
  exact List.getElem?_append_left h

theorem getElem?_pcdGrow_of_ge (pcd : List PerContextData) (size i : Nat)
    (h : pcd.length ≤ i) (hi : i < size) :
    (pcdGrow pcd size)[i]? = some PerContextData.unset := by
  simp only [pcdGrow]
  rw [List.getElem?_append_right h, List.getElem?_replicate]
  have : i - pcd.length < size - pcd.length := by omega
  simp [this]

/-- C15. `resizeGLObjectBuffers` grows and never shrinks the per-context
array: from an array of length n and a requested `maxSize` the length
afterwards is max(n, maxSize), every entry at an index below n is the entry
it was (so keeps its birth time), the entries added are unset, and no other
member of the geometry changes. -/
theorem C15_resize_grows_never_shrinks (g : MPGeometry) (maxSize : Nat) :
    (resizeGLObjectBuffers g maxSize).pcd.length = max g.pcd.length maxSize
    ∧ (∀ i, i < g.pcd.length → (resizeGLObjectBuffers g maxSize).pcd[i]? = g.pcd[i]?)
    ∧ (∀ i, g.pcd.length ≤ i → i < maxSize →
        (resizeGLObjectBuffers g maxSize).pcd[i]? = some PerContextData.unset)
    ∧ (resizeGLObjectBuffers g maxSize).layers = g.layers
    ∧ (resizeGLObjectBuffers g maxSize).primitives = g.primitives
    ∧ (resizeGLObjectBuffers g maxSize).supportsGLSL = g.supportsGLSL
    ∧ (resizeGLObjectBuffers g maxSize).tileKeyValue = g.tileKeyValue := by
  unfold resizeGLObjectBuffers
  by_cases h : g.pcd.length < maxSize
  · rw [if_pos h]
    exact ⟨length_pcdGrow _ _, fun i hi => getElem?_pcdGrow_of_lt _ _ _ hi,
      fun i h1 h2 => getElem?_pcdGrow_of_ge _ _ _ h1 h2, rfl, rfl, rfl, rfl⟩
  · rw [if_neg h]
    exact ⟨by omega, fun _ _ => rfl, fun i h1 h2 => by omega, rfl, rfl, rfl, rfl⟩

/-- C16. No-change path of the frame synchronisation: when the unlocked
`needsSync()` is false, or the `needsSync()` repeated under the lock is
false, or `sync()` reports no change, the draw leaves the tile list exactly
as it was. -/
theorem C16_no_change_path (g : MPGeometry) (frame : MapFrame) (state : OsgState)
    (h : frame.needsSync = false ∨ frame.needsSyncLocked = false ∨ frame.sync = false) :
    (drawPrimitivesImplementation g frame state).layers = g.layers := by
  rw [draw_layers]
  unfold syncLayers
  rcases h with h | h | h <;> simp [h]

/-- C16, at a concrete input: the frame needs a sync but `sync()` reports no
change; the tile list 3, 1 is left as it is although the authoritative order
is 1, 3. -/
theorem C16_no_change_path_witness :
    (drawPrimitivesImplementation
        (sampleGeometry [sampleLayer 3 true GLfloat.one, sampleLayer 1 true GLfloat.one])
        ⟨true, true, false, [⟨1, true, GLfloat.one⟩, ⟨3, true, GLfloat.one⟩]⟩
        sampleState).layers
      = [sampleLayer 3 true GLfloat.one, sampleLayer 1 true GLfloat.one] :=
  C16_no_change_path
    (sampleGeometry [sampleLayer 3 true GLfloat.one, sampleLayer 1 true GLfloat.one])
    ⟨true, true, false, [⟨1, true, GLfloat.one⟩, ⟨3, true, GLfloat.one⟩]⟩
    sampleState (Or.inr (Or.inr rfl))


/-! ## The birth time -/

theorem pcdAt_eq (pcd : List PerContextData) (c : Nat) :
    pcdAt pcd c = (pcd[c]?).getD PerContextData.unset := by
  unfold pcdAt
  rw [List.get?_eq_getElem?]
  by_cases h : c < pcd.length
  · rw [getElem?_pcdGrow_of_lt _ _ _ h]
  · rw [getElem?_pcdGrow_of_ge _ _ _ (by omega) (by omega),
      List.getElem?_eq_none (by omega)]
    rfl

/-- Writing the slot of context `c` changes that slot and no other. -/
theorem pcdAt_set (pcd : List PerContextData) (c c2 : Nat) (slot : PerContextData) :
    pcdAt ((pcdGrow pcd (c + 1)).set c slot) c2
      = if c2 = c then slot else pcdAt pcd c2 := by
  rw [pcdAt_eq, pcdAt_eq, List.getElem?_set]
  have hlen : c < (pcdGrow pcd (c + 1)).length := by
    rw [length_pcdGrow]
    omega
  by_cases h : c2 = c
  · subst h
    simp [hlen]
  · have h2 : ¬ c = c2 := fun e => h e.symm
    simp only [h, h2, if_false]
    by_cases hlt : c2 < pcd.length
    · rw [getElem?_pcdGrow_of_lt _ _ _ hlt]
    · by_cases hlt2 : c2 < c + 1
      · rw [getElem?_pcdGrow_of_ge _ _ _ (by omega) hlt2, List.getElem?_eq_none (by omega)]
        rfl
      · rw [List.getElem?_eq_none (by rw [length_pcdGrow]; omega),
          List.getElem?_eq_none (by omega)]

theorem GLfloat.not_lt_zero_of_ge_zero {t : GLfloat} (h : t.ge GLfloat.zero = true) :
    t.lt GLfloat.zero = false := by
  cases hl : t.lt GLfloat.zero with
  | false => rfl
  | true =>
    simp only [GLfloat.ge, GLfloat.le, Bool.and_eq_true, decide_eq_true_eq] at h
    simp only [GLfloat.lt, Bool.and_eq_true, decide_eq_true_eq] at hl
    omega

/-- A slot that holds a birth time of at least zero is left as it is by the
latch of lines 139-146. -/
theorem latchBirthTime_of_ge_zero {t : GLfloat} (h : t.ge GLfloat.zero = true)
    (frameStamp : Option GLfloat) : latchBirthTime ⟨t⟩ frameStamp = ⟨t⟩ := by
  simp [latchBirthTime, GLfloat.not_lt_zero_of_ge_zero h]

/-- The per-context array after a draw is the old one, or the old one with
the slot of the current context latched. -/
theorem draw_pcd_cases (g : MPGeometry) (frame : MapFrame) (state : OsgState) :
    (drawPrimitivesImplementation g frame state).pcd = g.pcd
    ∨ (drawPrimitivesImplementation g frame state).pcd
        = (pcdGrow g.pcd (state.contextID + 1)).set state.contextID
            (latchBirthTime (pcdAt g.pcd state.contextID) state.frameStamp) := by
  unfold drawPrimitivesImplementation
  simp only
  split
  · exact Or.inl rfl
  · unfold applyBirthTime
    split
    · exact Or.inr rfl
    · exact Or.inl rfl

/-- A draw never changes the slot of a context other than its own. -/
theorem draw_pcd_other_context (g : MPGeometry) (frame : MapFrame) (state : OsgState)
    (c : Nat) (hc : c ≠ state.contextID) :
    pcdAt (drawPrimitivesImplementation g frame state).pcd c = pcdAt g.pcd c := by
  rcases draw_pcd_cases g frame state with h | h
  · rw [h]
  · rw [h, pcdAt_set, if_neg hc]

/-- A slot that holds a birth time of at least zero survives every draw. -/
theorem draw_pcd_latched (g : MPGeometry) (frame : MapFrame) (state : OsgState)
    (c : Nat) (t : GLfloat) (hslot : pcdAt g.pcd c = ⟨t⟩) (ht : t.ge GLfloat.zero = true) :
    pcdAt (drawPrimitivesImplementation g frame state).pcd c = ⟨t⟩ := by
  rcases draw_pcd_cases g frame state with h | h
  · rw [h, hslot]
  · rw [h, pcdAt_set]
    by_cases hc : c = state.contextID
    · rw [if_pos hc, ← hc, hslot, latchBirthTime_of_ge_zero ht]
    · rw [if_neg hc, hslot]

theorem afterDraws_supportsGLSL (g : MPGeometry) (draws : List (MapFrame × OsgState)) :
    (afterDraws g draws).supportsGLSL = g.supportsGLSL := by
  induction draws generalizing g with
  | nil => rfl
  | cons d rest ih =>
    unfold afterDraws
    rw [ih]
    rfl

theorem afterDraws_pcd_latched (g : MPGeometry) (draws : List (MapFrame × OsgState))
    (c : Nat) (t : GLfloat) (hslot : pcdAt g.pcd c = ⟨t⟩) (ht : t.ge GLfloat.zero = true) :
    pcdAt (afterDraws g draws).pcd c = ⟨t⟩ := by
  induction draws generalizing g with
  | nil => exact hslot
  | cons d rest ih =>
    unfold afterDraws
    exact ih _ (draw_pcd_latched g d.1 d.2 c t hslot ht)

theorem uniform1fValues_birthTime_uniformCalls (loc : Locations) (imageLayer : ImageLayer)
    (v : LoopVars) : uniform1fValues .birthTime (uniformCalls loc imageLayer v) = [] := by
  unfold uniformCalls uniform1fValues
  by_cases h1 : uploadsOpacity loc imageLayer v.prevOpacity = true <;>
    by_cases h2 : loc.uid ≥ 0 <;> by_cases h3 : loc.order ≥ 0 <;> simp [h1, h2, h3]

theorem layerLoop_birthTime_values (e : GL2Extensions) (p : PerContextProgram)
    (loc : Locations) (primitives : List (Option DrawElements)) (layers : List Layer)
    (v : LoopVars) :
    uniform1fValues .birthTime (layerLoop (some e) (some p) loc primitives layers v).1.calls
      = [] := by
  induction layers generalizing v with
  | nil => rfl
  | cons i rest ih =>
    cases h : i.isDrawn with
    | false => rw [layerLoop_cons_skipped _ _ _ _ _ _ _ h, ih]
    | true =>
      rw [layerLoop_cons_drawn _ _ _ _ _ _ _ h]
      simp only [uniform1fValues_append, uniform1fValues_bindCalls,
        uniform1fValues_drawPrimitiveSets, uniform1fValues_birthTime_uniformCalls, ih,
        List.append_nil]

theorem fallback_birthTime_values (e : GL2Extensions) (loc : Locations)
    (primitives : List (Option DrawElements)) (layersDrawn : Nat) :
    uniform1fValues .birthTime (fallback (some e) loc primitives layersDrawn).calls = [] := by
  have hd := uniform1fValues_drawPrimitiveSets .birthTime primitives
  unfold uniform1fValues at hd
  unfold fallback
  by_cases h0 : layersDrawn = 0 <;> by_cases h1 : loc.opacity ≥ 0 <;>
    by_cases h2 : loc.uid ≥ 0 <;> by_cases h3 : loc.order ≥ 0 <;>
    simp [h0, h1, h2, h3, extCall, Run.seq, Run.skip, uniform1fValues,
      drawPrimitiveSets_crashed, hd]

/-- With a bound program that has the birth-time uniform, a draw uploads
exactly one birth time: that of the latched slot of its context. -/
theorem draw_birthTime_values (g : MPGeometry) (frame : MapFrame) (state : OsgState)
    (p : PerContextProgram)
    (hglsl : g.supportsGLSL = true) (hpcp : state.lastAppliedProgramObject = some p)
    (hloc : p.getUniformLocation .birthTime ≥ 0) :
    uniform1fValues .birthTime (drawPrimitivesImplementation g frame state).calls
      = [(latchBirthTime (pcdAt g.pcd state.contextID) state.frameStamp).birthTime]
    ∧ (drawPrimitivesImplementation g frame state).pcd
        = (pcdGrow g.pcd (state.contextID + 1)).set state.contextID
            (latchBirthTime (pcdAt g.pcd state.contextID) state.frameStamp) := by
  have hl : (resolveLocations (some p)).birthTime ≥ 0 := hloc
  constructor
  · rw [draw_calls_bound g frame state p hglsl hpcp, applyTileKey_some, applyBirthTime_some]
    simp only [uniform1fValues_append, layerLoop_birthTime_values, fallback_birthTime_values,
      hl, if_true, List.append_nil]
    by_cases h1 : (resolveLocations (some p)).tileKey ≥ 0 <;> simp [h1, uniform1fValues]
  · unfold drawPrimitivesImplementation
    simp only
    rw [getExt_of_glsl state hglsl, getPcp_of_glsl hglsl hpcp, applyTileKey_some]
    simp [applyBirthTime, hl]


/-- C14. Birth-time latch: in a context whose slot is unset (negative birth
time), a draw with a bound program that has the birth-time uniform and a
frame stamp of reference time t, t at least zero, stores t in the slot of
that context and uploads t.  After any further draws, in whatever contexts
and at whatever frame times, the slot still holds t, and a draw in that
context with a bound program that has the birth-time uniform uploads t
again.  No draw changes the slot of a context other than its own. -/
theorem C14_birth_time_latch (g : MPGeometry) (frame : MapFrame) (state : OsgState)
    (p : PerContextProgram) (t : GLfloat)
    (hglsl : g.supportsGLSL = true) (hpcp : state.lastAppliedProgramObject = some p)
    (hloc : p.getUniformLocation .birthTime ≥ 0)
    (hunset : (pcdAt g.pcd state.contextID).birthTime.lt GLfloat.zero = true)
    (hstamp : state.frameStamp = some t) (ht : t.ge GLfloat.zero = true) :
    pcdAt (drawPrimitivesImplementation g frame state).pcd state.contextID = ⟨t⟩
    ∧ uniform1fValues .birthTime (drawPrimitivesImplementation g frame state).calls = [t]
    ∧ (∀ (later : List (MapFrame × OsgState)),
        pcdAt (afterDraws (afterDraw g frame state) later).pcd state.contextID = ⟨t⟩
        ∧ ∀ (frame2 : MapFrame) (state2 : OsgState) (p2 : PerContextProgram),
            state2.contextID = state.contextID →
            state2.lastAppliedProgramObject = some p2 →
            p2.getUniformLocation .birthTime ≥ 0 →
            uniform1fValues .birthTime (drawPrimitivesImplementation
                (afterDraws (afterDraw g frame state) later) frame2 state2).calls = [t]
            ∧ pcdAt (drawPrimitivesImplementation
                (afterDraws (afterDraw g frame state) later) frame2 state2).pcd
                state.contextID = ⟨t⟩)
    ∧ (∀ (g2 : MPGeometry) (frame2 : MapFrame) (state2 : OsgState) (c : Nat),
        c ≠ state2.contextID →
        pcdAt (drawPrimitivesImplementation g2 frame2 state2).pcd c = pcdAt g2.pcd c) := by
  have hlatch : latchBirthTime (pcdAt g.pcd state.contextID) state.frameStamp = ⟨t⟩ := by
    simp [latchBirthTime, hunset, hstamp]
  obtain ⟨hvals, hpcd⟩ := draw_birthTime_values g frame state p hglsl hpcp hloc
  have hfirst : pcdAt (drawPrimitivesImplementation g frame state).pcd state.contextID = ⟨t⟩ := by
    rw [hpcd, pcdAt_set, if_pos rfl, hlatch]
  refine ⟨hfirst, by rw [hvals, hlatch], ?_, ?_⟩
  · intro later
    have hslot : pcdAt (afterDraws (afterDraw g frame state) later).pcd state.contextID = ⟨t⟩ :=
      afterDraws_pcd_latched _ later _ t hfirst ht
    refine ⟨hslot, ?_⟩
    intro frame2 state2 p2 hctx hpcp2 hloc2
    have hglsl2 : (afterDraws (afterDraw g frame state) later).supportsGLSL = true := by
      rw [afterDraws_supportsGLSL]
      exact hglsl
    constructor
    · rw [(draw_birthTime_values _ frame2 state2 p2 hglsl2 hpcp2 hloc2).1, hctx, hslot,
        latchBirthTime_of_ge_zero ht]
    · exact draw_pcd_latched _ frame2 state2 _ t hslot ht
  · intro g2 frame2 state2 c hc
    exact draw_pcd_other_context g2 frame2 state2 c hc

/-- C14, at a concrete input: a geometry with no per-context slot yet, drawn
in context 0 at reference time 1.0 with all uniforms found. -/
theorem C14_birth_time_latch_witness :
    pcdAt (drawPrimitivesImplementation (sampleGeometry []) idleFrame sampleState).pcd 0
      = ⟨GLfloat.one⟩
    ∧ uniform1fValues .birthTime
        (drawPrimitivesImplementation (sampleGeometry []) idleFrame sampleState).calls
      = [GLfloat.one] :=
  have h := C14_birth_time_latch (sampleGeometry []) idleFrame sampleState fullProgram
    GLfloat.one rfl rfl (by decide) (by decide) rfl (by decide)
  ⟨h.1, h.2.1⟩

theorem Run.seq_crashed (a b : Run) : (a.seq b).crashed = (a.crashed || b.crashed) := by
  unfold Run.seq
  cases h : a.crashed <;> simp [h]

theorem Run.seq_calls (a b : Run) :
    (a.seq b).calls = if a.crashed then a.calls else a.calls ++ b.calls := by
  unfold Run.seq
  cases h : a.crashed <;> simp [h]

theorem drawnPrimitives_seq_nil {a b : Run} (ha : drawnPrimitives a.calls = [])
    (hb : drawnPrimitives b.calls = []) : drawnPrimitives (a.seq b).calls = [] := by
  rw [Run.seq_calls]
  split
  · exact ha
  · rw [drawnPrimitives_append, ha, hb]
    rfl

theorem drawnPrimitives_bindCalls (loc : Locations) (i : Layer) :
    drawnPrimitives (bindCalls loc i) = [] := by
  unfold bindCalls drawnPrimitives
  cases i.tex <;> cases i.texMatrix <;> simp

theorem drawnPrimitives_uniformCalls (loc : Locations) (imageLayer : ImageLayer)
    (v : LoopVars) : drawnPrimitives (uniformCalls loc imageLayer v) = [] := by
  unfold uniformCalls drawnPrimitives
  by_cases h1 : uploadsOpacity loc imageLayer v.prevOpacity = true <;>
    by_cases h2 : loc.uid ≥ 0 <;> by_cases h3 : loc.order ≥ 0 <;> simp [h1, h2, h3]

/-- Without a program the body of the loop leaves the loop variables as they
were, draws no primitive set, and crashes exactly when the layer is drawn,
has a texture matrix and `ext` is null. -/
theorem layerBody_unbound (ext : Option GL2Extensions) (loc : Locations)
    (primitives : List (Option DrawElements)) (i : Layer) (v : LoopVars) :
    (layerBody ext none loc primitives i v).2 = v
    ∧ drawnPrimitives (layerBody ext none loc primitives i v).1.calls = []
    ∧ (layerBody ext none loc primitives i v).1.crashed
        = (i.isDrawn && i.texMatrix.isSome && ext.isNone) := by
  unfold layerBody Layer.isDrawn
  by_cases hd : (i.imageLayer.visible && i.imageLayer.opacity.gt GLfloat.zero) = true
  · simp only [hd, if_true]
    cases ext <;> cases i.tex <;> cases i.texMatrix <;>
      simp [Run.emit, Run.seq, extCall, drawnPrimitives]
  · simp only [hd]
    simp [Run.skip, drawnPrimitives]

theorem layerLoop_unbound (ext : Option GL2Extensions) (loc : Locations)
    (primitives : List (Option DrawElements)) (layers : List Layer) (v : LoopVars) :
    (layerLoop ext none loc primitives layers v).2 = v
    ∧ drawnPrimitives (layerLoop ext none loc primitives layers v).1.calls = []
    ∧ (layerLoop ext none loc primitives layers v).1.crashed
        = layers.any (fun i => i.isDrawn && i.texMatrix.isSome && ext.isNone) := by
  induction layers generalizing v with
  | nil => exact ⟨rfl, rfl, rfl⟩
  | cons i rest ih =>
    obtain ⟨hb1, hb2, hb3⟩ := layerBody_unbound ext loc primitives i v
    unfold layerLoop
    simp only
    rw [hb1]
    obtain ⟨h1, h2, h3⟩ := ih v
    refine ⟨h1, drawnPrimitives_seq_nil hb2 h2, ?_⟩
    rw [Run.seq_crashed, hb3, h3, List.any_cons]

/-- The fallback pass with no uniform found issues the primitive draws and
nothing else, whatever `ext` is. -/
theorem fallback_unbound (ext : Option GL2Extensions)
    (primitives : List (Option DrawElements)) :
    fallback ext (resolveLocations none) primitives 0 = drawPrimitiveSets primitives := by
  simp [fallback, resolveLocations, Run.seq, Run.skip, drawPrimitiveSets]

/-- Without a program a draw call is the loop followed, unless the loop
crashed, by the primitive draws of the fallback pass. -/
theorem draw_unbound_run (g : MPGeometry) (frame : MapFrame) (state : OsgState)
    (hpcp : getPcp g state = none) :
    (drawPrimitivesImplementation g frame state).calls
        = ((layerLoop (getExt g state) none (resolveLocations none) g.primitives
            (syncLayers frame g.layers) LoopVars.init).1.seq
            (drawPrimitiveSets g.primitives)).calls
    ∧ (drawPrimitivesImplementation g frame state).crashed
        = ((layerLoop (getExt g state) none (resolveLocations none) g.primitives
            (syncLayers frame g.layers) LoopVars.init).1.seq
            (drawPrimitiveSets g.primitives)).crashed := by
  have h1 := (layerLoop_unbound (getExt g state) (resolveLocations none)
    g.primitives (syncLayers frame g.layers) LoopVars.init).1
  unfold drawPrimitivesImplementation
  simp only [hpcp, h1]
  have ht : applyTileKey (getExt g state) (resolveLocations none) g.tileKeyValue
      = Run.skip := by
    simp [applyTileKey, resolveLocations]
  have hb : (applyBirthTime (getExt g state) (resolveLocations none) state g.pcd).1
      = Run.skip := by
    simp [applyBirthTime, resolveLocations]
  rw [ht, hb, Run.skip_seq, Run.skip_seq]
  have hf : fallback (getExt g state) (resolveLocations none) g.primitives
      LoopVars.init.layersDrawn = drawPrimitiveSets g.primitives :=
    fallback_unbound _ _
  rw [hf]
  exact ⟨rfl, rfl⟩

/-- Without a program a draw call crashes exactly when `ext` is null and
some drawn layer has a texture matrix; it draws every primitive set once
when it does not crash, and none when it does. -/
theorem draw_unbound (g : MPGeometry) (frame : MapFrame) (state : OsgState)
    (hpcp : getPcp g state = none) :
    (drawPrimitivesImplementation g frame state).crashed
      = (syncLayers frame g.layers).any
          (fun i => i.isDrawn && i.texMatrix.isSome && (getExt g state).isNone)
    ∧ drawnPrimitives (drawPrimitivesImplementation g frame state).calls
      = if (drawPrimitivesImplementation g frame state).crashed then []
        else g.primitives.reduceOption := by
  obtain ⟨_, h2, h3⟩ := layerLoop_unbound (getExt g state) (resolveLocations none)
    g.primitives (syncLayers frame g.layers) LoopVars.init
  have hrun := draw_unbound_run g frame state hpcp
  have hc : (drawPrimitivesImplementation g frame state).crashed
      = (syncLayers frame g.layers).any
          (fun i => i.isDrawn && i.texMatrix.isSome && (getExt g state).isNone) := by
    rw [hrun.2, Run.seq_crashed, h3, drawPrimitiveSets_crashed, Bool.or_false]
  refine ⟨hc, ?_⟩
  rw [hrun.1, Run.seq_calls, h3.trans hc.symm]
  cases (drawPrimitivesImplementation g frame state).crashed with
  | true =>
    simp only [if_true]
    exact h2
  | false =>
    simp only [Bool.false_eq_true, if_false]
    rw [drawnPrimitives_append, h2, drawnPrimitives_drawPrimitiveSets]
    rfl

theorem noUploads_seq {a b : Run} (ha : a.noUploads) (hb : b.noUploads) :
    (a.seq b).noUploads := by
  intro c hc u
  rw [Run.seq_calls] at hc
  split at hc
  · exact ha c hc u
  · rcases List.mem_append.1 hc with h | h
    · exact ha c h u
    · exact hb c h u

theorem noUploads_drawPrimitiveSets (primitives : List (Option DrawElements)) :
    (drawPrimitiveSets primitives).noUploads := by
  intro c hc u
  unfold drawPrimitiveSets at hc
  obtain ⟨a, _, ha⟩ := List.mem_map.1 hc
  cases a <;> simp at ha <;> subst ha <;> rfl

/-- With a null `ext` and no program the body of the loop issues no uniform
upload. -/
theorem noUploads_layerBody (loc : Locations) (primitives : List (Option DrawElements))
    (i : Layer) (v : LoopVars) : (layerBody none none loc primitives i v).1.noUploads := by
  intro c hc u
  unfold layerBody at hc
  by_cases hd : (i.imageLayer.visible && i.imageLayer.opacity.gt GLfloat.zero) = true
  · simp only [hd, if_true] at hc
    revert hc
    cases i.tex <;> cases i.texMatrix <;>
      simp only [Run.emit, Run.seq, extCall, Bool.false_eq_true, if_false, List.singleton_append,
        List.cons_append, List.nil_append, List.append_nil, List.mem_cons, List.mem_singleton,
        List.not_mem_nil, or_false] <;>
      intro hc <;>
      first
        | (rcases hc with hc | hc | hc <;> subst hc <;> rfl)
        | (rcases hc with hc | hc <;> subst hc <;> rfl)
  · simp only [hd] at hc
    exact absurd hc (List.not_mem_nil _)

theorem noUploads_layerLoop (loc : Locations) (primitives : List (Option DrawElements))
    (layers : List Layer) (v : LoopVars) :
    (layerLoop none none loc primitives layers v).1.noUploads := by
  induction layers generalizing v with
  | nil =>
    intro c hc
    exact absurd hc (List.not_mem_nil _)
  | cons i rest ih =>
    unfold layerLoop
    exact noUploads_seq (noUploads_layerBody loc primitives i v) (ih _)

theorem getExt_of_no_glsl {g : MPGeometry} (state : OsgState) (h : g.supportsGLSL = false) :
    getExt g state = none := by
  simp [getExt, h]

theorem getPcp_of_no_glsl {g : MPGeometry} (state : OsgState) (h : g.supportsGLSL = false) :
    getPcp g state = none := by
  simp [getPcp, h]

/-- When GLSL is not supported a draw call issues no uniform upload, and it
crashes, by the call through the null `ext` on line 176, exactly when some
drawn layer of the synchronised tile list has a texture matrix. -/
theorem draw_fixed_function (g : MPGeometry) (frame : MapFrame) (state : OsgState)
    (h : g.supportsGLSL = false) :
    (∀ c ∈ (drawPrimitivesImplementation g frame state).calls, ∀ u, c.writes u = false)
    ∧ (drawPrimitivesImplementation g frame state).crashed
        = (syncLayers frame g.layers).any (fun i => i.isDrawn && i.texMatrix.isSome) := by
  have hpcp := getPcp_of_no_glsl state h
  have hext := getExt_of_no_glsl state h
  constructor
  · rw [(draw_unbound_run g frame state hpcp).1, hext]
    exact noUploads_seq (noUploads_layerLoop _ _ _ _) (noUploads_drawPrimitiveSets _)
  · rw [(draw_unbound g frame state hpcp).1, hext]
    simp

/-- C13. Fixed-function path, at the input where the claim fails: GLSL is
not supported, so `ext` stays null, and the tile list holds one visible layer
of opacity 1 with a texture and a texture matrix; after binding the texture
the draw call calls `glUniformMatrix4fv` through the null `ext` (line 176)
and goes no further.  For every draw call without GLSL support no uniform
upload is issued, and the null `ext` is used exactly when some drawn layer
has a texture matrix. -/
theorem C13_fixed_function_path_uses_null_ext :
    getExt (fixedFunctionGeometry [sampleLayer 10 true GLfloat.one]) sampleState = none
    ∧ (drawPrimitivesImplementation (fixedFunctionGeometry [sampleLayer 10 true GLfloat.one])
        idleFrame sampleState).crashed = true
    ∧ (drawPrimitivesImplementation (fixedFunctionGeometry [sampleLayer 10 true GLfloat.one])
        idleFrame sampleState).calls
        = [GLCall.setActiveTextureUnit 0, GLCall.texApply 7]
    ∧ (∀ (g : MPGeometry) (frame : MapFrame) (state : OsgState), g.supportsGLSL = false →
        (∀ c ∈ (drawPrimitivesImplementation g frame state).calls, ∀ u, c.writes u = false)
        ∧ (drawPrimitivesImplementation g frame state).crashed
            = (syncLayers frame g.layers).any (fun i => i.isDrawn && i.texMatrix.isSome)) := by
  refine ⟨by decide, by decide, by decide, ?_⟩
  intro g frame state h
  exact draw_fixed_function g frame state h

/-! ## The number of primitive draws -/

theorem layerLoop_bound_draws (e : GL2Extensions) (p : PerContextProgram)
    (loc : Locations) (primitives : List (Option DrawElements)) (layers : List Layer)
    (v : LoopVars) :
    drawnPrimitives (layerLoop (some e) (some p) loc primitives layers v).1.calls
      = (List.replicate (drawnLayers layers).length primitives.reduceOption).flatten := by
  induction layers generalizing v with
  | nil => rfl
  | cons i rest ih =>
    rw [drawnLayers_cons]
    cases h : i.isDrawn with
    | false =>
      rw [layerLoop_cons_skipped _ _ _ _ _ _ _ h, ih]
      simp
    | true =>
      rw [layerLoop_cons_drawn _ _ _ _ _ _ _ h]
      simp only [drawnPrimitives_append, drawnPrimitives_bindCalls,
        drawnPrimitives_uniformCalls, drawnPrimitives_drawPrimitiveSets, ih, if_true,
        List.length_cons, List.replicate_succ, List.flatten_cons, List.nil_append]

theorem fallback_bound_draws (e : GL2Extensions) (loc : Locations)
    (primitives : List (Option DrawElements)) (layersDrawn : Nat) :
    drawnPrimitives (fallback (some e) loc primitives layersDrawn).calls
      = if layersDrawn = 0 then primitives.reduceOption else [] := by
  have hd := drawnPrimitives_drawPrimitiveSets primitives
  unfold drawnPrimitives at hd
  unfold fallback
  by_cases h0 : layersDrawn = 0 <;> by_cases h1 : loc.opacity ≥ 0 <;>
    by_cases h2 : loc.uid ≥ 0 <;> by_cases h3 : loc.order ≥ 0 <;>
    simp [h0, h1, h2, h3, extCall, Run.seq, Run.skip, drawnPrimitives,
      drawPrimitiveSets_crashed, hd]

/-- With a bound program every non-null primitive set is drawn once per
drawn layer, or once by the fallback pass when no layer is drawn. -/
theorem draw_bound_draws (g : MPGeometry) (frame : MapFrame) (state : OsgState)
    (p : PerContextProgram)
    (hglsl : g.supportsGLSL = true) (hpcp : state.lastAppliedProgramObject = some p) :
    drawnPrimitives (drawPrimitivesImplementation g frame state).calls
      = (List.replicate (max (drawnLayers (syncLayers frame g.layers)).length 1)
          g.primitives.reduceOption).flatten := by
  rw [draw_calls_bound g frame state p hglsl hpcp]
  have hpre := (preludeCalls_observations ⟨state.contextID⟩ (resolveLocations (some p))
    state g).2.2
  rw [← List.append_assoc, drawnPrimitives_append, hpre, drawnPrimitives_append,
    layerLoop_bound_draws, fallback_bound_draws]
  by_cases hk : (drawnLayers (syncLayers frame g.layers)).length = 0
  · simp [hk]
  · have hmax : max (drawnLayers (syncLayers frame g.layers)).length 1
        = (drawnLayers (syncLayers frame g.layers)).length := by omega
    simp [hk, hmax]


theorem count_flatten_replicate (p : DrawElements) (n : Nat) (l : List DrawElements) :
    (List.replicate n l).flatten.count p = n * l.count p := by
  induction n with
  | zero => simp
  | succ n ih =>
    rw [List.replicate_succ, List.flatten_cons, List.count_append, ih]
    ring

theorem count_reduceOption (p : DrawElements) (l : List (Option DrawElements)) :
    l.reduceOption.count p = l.count (some p) := by
  induction l with
  | nil => rfl
  | cons a rest ih =>
    cases a with
    | none =>
      rw [List.reduceOption_cons_of_none, ih, List.count_cons_of_ne (by simp)]
    | some d =>
      rw [List.reduceOption_cons_of_some]
      by_cases hd : d = p
      · subst hd
        rw [List.count_cons_self, List.count_cons_self, ih]
      · have h1 : p ≠ d := fun e => hd e.symm
        have h2 : some p ≠ some d := fun e => h1 (Option.some.inj e)
        rw [List.count_cons_of_ne h1, List.count_cons_of_ne h2, ih]

/-- C19. Number of primitive draws per draw call, at the input where the
claim fails: GLSL is not supported (no program is bound) and the tile list
holds one visible layer of opacity 1 with a texture matrix; the draw call
crashes on line 176, before the fallback pass, and the non-null primitive set
is drawn zero times instead of once.  Elsewhere the claim holds: with a bound
program the draws are those of the non-null primitive sets, in order,
repeated max(k, 1) times, so each is drawn max(k, 1) times per occurrence;
without a program each non-null primitive set is drawn exactly once whenever
the call does not crash, which is the case when GLSL is supported or no drawn
layer has a texture matrix. -/
theorem C19_fixed_function_crash_draws_nothing :
    getPcp (fixedFunctionGeometry [sampleLayer 10 true GLfloat.one]) sampleState = none
    ∧ (fixedFunctionGeometry [sampleLayer 10 true GLfloat.one]).primitives.reduceOption
        = [⟨GL_TRIANGLES, [0, 1, 2]⟩]
    ∧ drawnPrimitives (drawPrimitivesImplementation
        (fixedFunctionGeometry [sampleLayer 10 true GLfloat.one]) idleFrame sampleState).calls
        = []
    ∧ (drawPrimitivesImplementation
        (fixedFunctionGeometry [sampleLayer 10 true GLfloat.one]) idleFrame sampleState).crashed
        = true
    ∧ (∀ (g : MPGeometry) (frame : MapFrame) (state : OsgState) (p : PerContextProgram),
        g.supportsGLSL = true → state.lastAppliedProgramObject = some p →
        drawnPrimitives (drawPrimitivesImplementation g frame state).calls
          = (List.replicate (max (drawnLayers (syncLayers frame g.layers)).length 1)
              g.primitives.reduceOption).flatten
        ∧ ∀ d : DrawElements,
            (drawnPrimitives (drawPrimitivesImplementation g frame state).calls).count d
              = max (drawnLayers (syncLayers frame g.layers)).length 1
                * g.primitives.count (some d))
    ∧ (∀ (g : MPGeometry) (frame : MapFrame) (state : OsgState),
        getPcp g state = none →
        (drawPrimitivesImplementation g frame state).crashed = false →
        drawnPrimitives (drawPrimitivesImplementation g frame state).calls
          = g.primitives.reduceOption
        ∧ ∀ d : DrawElements,
            (drawnPrimitives (drawPrimitivesImplementation g frame state).calls).count d
              = g.primitives.count (some d))
    ∧ (∀ (g : MPGeometry) (frame : MapFrame) (state : OsgState),
        getPcp g state = none →
        (g.supportsGLSL = true
          ∨ ∀ i ∈ syncLayers frame g.layers, i.isDrawn = true → i.texMatrix = none) →
        (drawPrimitivesImplementation g frame state).crashed = false) := by
  refine ⟨rfl, by decide, by decide, by decide, ?_, ?_, ?_⟩
  · intro g frame state p hglsl hpcp
    have h := draw_bound_draws g frame state p hglsl hpcp
    refine ⟨h, fun d => ?_⟩
    rw [h, count_flatten_replicate, count_reduceOption]
  · intro g frame state hpcp hok
    have h := (draw_unbound g frame state hpcp).2
    rw [hok] at h
    simp only [Bool.false_eq_true, if_false] at h
    refine ⟨h, fun d => ?_⟩
    rw [h, count_reduceOption]
  · intro g frame state hpcp hcond
    rw [(draw_unbound g frame state hpcp).1, List.any_eq_false]
    intro i hi
    rcases hcond with hg | hm
    · rw [getExt_of_glsl state hg]
      simp
    · cases hd : i.isDrawn with
      | false => simp
      | true =>
        rw [hm i hi hd]
        simp


/-! ## The opacity in effect at every draw -/

theorem opacityAtDraws_append (current : Option GLfloat) (a b : List GLCall) :
    opacityAtDraws current (a ++ b)
      = opacityAtDraws current a ++ opacityAtDraws (opacityAfter current a) b := by
  induction a generalizing current with
  | nil => rfl
  | cons c rest ih =>
    cases c with
    | glUniform1f u l v => cases u <;> simp [opacityAtDraws, opacityAfter, ih]
    | _ => simp [opacityAtDraws, opacityAfter, ih]

theorem opacity_bindCalls (current : Option GLfloat) (loc : Locations) (i : Layer) :
    opacityAtDraws current (bindCalls loc i) = []
    ∧ opacityAfter current (bindCalls loc i) = current := by
  unfold bindCalls
  cases i.tex <;> cases i.texMatrix <;> simp [opacityAtDraws, opacityAfter]

theorem opacity_uniformCalls (current : Option GLfloat) (loc : Locations)
    (imageLayer : ImageLayer) (v : LoopVars) :
    opacityAtDraws current (uniformCalls loc imageLayer v) = []
    ∧ opacityAfter current (uniformCalls loc imageLayer v)
        = if uploadsOpacity loc imageLayer v.prevOpacity then some imageLayer.opacity
          else current := by
  unfold uniformCalls
  by_cases h1 : uploadsOpacity loc imageLayer v.prevOpacity = true <;>
    by_cases h2 : loc.uid ≥ 0 <;> by_cases h3 : loc.order ≥ 0 <;>
    simp [h1, h2, h3, opacityAtDraws, opacityAfter]

theorem opacity_drawPrimitiveSets (current : Option GLfloat)
    (primitives : List (Option DrawElements)) :
    opacityAtDraws current (drawPrimitiveSets primitives).calls
        = List.replicate primitives.reduceOption.length current
    ∧ opacityAfter current (drawPrimitiveSets primitives).calls = current := by
  unfold drawPrimitiveSets
  induction primitives with
  | nil => exact ⟨rfl, rfl⟩
  | cons a rest ih =>
    cases a with
    | none =>
      simpa [opacityAtDraws, opacityAfter, List.reduceOption_cons_of_none] using ih
    | some d =>
      simp only [List.map_cons, opacityAtDraws, opacityAfter, List.reduceOption_cons_of_some,
        List.length_cons, List.replicate_succ]
      exact ⟨by rw [ih.1], ih.2⟩

theorem opacityAfter_append (current : Option GLfloat) (a b : List GLCall) :
    opacityAfter current (a ++ b) = opacityAfter (opacityAfter current a) b := by
  induction a generalizing current with
  | nil => rfl
  | cons c rest ih =>
    cases c with
    | glUniform1f u l v => cases u <;> simp [opacityAfter, ih]
    | _ => simp [opacityAfter, ih]

theorem opacityAtDraws_bindCalls (current : Option GLfloat) (loc : Locations) (i : Layer) :
    opacityAtDraws current (bindCalls loc i) = [] := (opacity_bindCalls current loc i).1

theorem opacityAfter_bindCalls (current : Option GLfloat) (loc : Locations) (i : Layer) :
    opacityAfter current (bindCalls loc i) = current := (opacity_bindCalls current loc i).2

theorem opacityAtDraws_uniformCalls (current : Option GLfloat) (loc : Locations)
    (imageLayer : ImageLayer) (v : LoopVars) :
    opacityAtDraws current (uniformCalls loc imageLayer v) = [] :=
  (opacity_uniformCalls current loc imageLayer v).1

theorem opacityAfter_uniformCalls (current : Option GLfloat) (loc : Locations)
    (imageLayer : ImageLayer) (v : LoopVars) :
    opacityAfter current (uniformCalls loc imageLayer v)
      = if uploadsOpacity loc imageLayer v.prevOpacity then some imageLayer.opacity
        else current := (opacity_uniformCalls current loc imageLayer v).2

theorem opacityAtDraws_drawPrimitiveSets (current : Option GLfloat)
    (primitives : List (Option DrawElements)) :
    opacityAtDraws current (drawPrimitiveSets primitives).calls
      = List.replicate primitives.reduceOption.length current :=
  (opacity_drawPrimitiveSets current primitives).1

theorem opacityAfter_drawPrimitiveSets (current : Option GLfloat)
    (primitives : List (Option DrawElements)) :
    opacityAfter current (drawPrimitiveSets primitives).calls = current :=
  (opacity_drawPrimitiveSets current primitives).2

/-- When a drawn layer's opacity is not re-uploaded, the previous opacity is
that very opacity. -/
theorem prev_eq_of_not_uploaded {i : Layer} {loc : Locations} {prev : GLfloat}
    (hd : i.isDrawn = true) (hloc : loc.opacity ≥ 0)
    (hup : uploadsOpacity loc i.imageLayer prev = false) :
    prev = i.imageLayer.opacity ∧ prev ≠ GLfloat.negOne := by
  have hpos : i.imageLayer.opacity.gt GLfloat.zero = true := by
    unfold Layer.isDrawn at hd
    rw [Bool.and_eq_true] at hd
    exact hd.2
  have hne : i.imageLayer.opacity.ne prev = false := by
    simpa [uploadsOpacity, hloc] using hup
  have hfeq : i.imageLayer.opacity.feq prev = true := by
    simpa [GLfloat.ne] using hne
  have hk := (GLfloat.gt_zero_iff _).1 hpos
  simp only [GLfloat.feq, Bool.and_eq_true, Bool.not_eq_true', decide_eq_true_eq] at hfeq
  have hprevpos : prev.gt GLfloat.zero = true := by
    rw [GLfloat.gt_zero_iff]
    exact ⟨hfeq.1.2, by rw [← hfeq.2]; exact hk.2⟩
  have heq : prev = i.imageLayer.opacity := by
    by_contra hcon
    have := (GLfloat.ne_iff_of_gt_zero hpos hprevpos).2 (fun e => hcon e.symm)
    rw [hne] at this
    exact Bool.false_ne_true this
  refine ⟨heq, ?_⟩
  intro hneg
  rw [hneg] at hprevpos
  exact absurd hprevpos (by decide)

/-- The opacity in effect at every draw of the loop is the opacity of the
layer the draw belongs to, provided that what was uploaded last is
`prevOpacity`, or `prevOpacity` still is the initial -1. -/
theorem layerLoop_opacityAtDraws (e : GL2Extensions) (p : PerContextProgram)
    (loc : Locations) (primitives : List (Option DrawElements)) (layers : List Layer)
    (v : LoopVars) (current : Option GLfloat) (hloc : loc.opacity ≥ 0)
    (hinv : current = some v.prevOpacity ∨ v.prevOpacity = GLfloat.negOne) :
    opacityAtDraws current (layerLoop (some e) (some p) loc primitives layers v).1.calls
      = (drawnLayers layers).flatMap (fun i =>
          List.replicate primitives.reduceOption.length (some i.imageLayer.opacity)) := by
  induction layers generalizing v current with
  | nil => rfl
  | cons i rest ih =>
    rw [drawnLayers_cons]
    cases h : i.isDrawn with
    | false =>
      rw [layerLoop_cons_skipped _ _ _ _ _ _ _ h, ih v current hinv]
      simp
    | true =>
      rw [layerLoop_cons_drawn _ _ _ _ _ _ _ h]
      simp only [if_true, List.flatMap_cons]
      simp only [opacityAtDraws_append, opacityAfter_append, opacityAtDraws_bindCalls,
        opacityAfter_bindCalls, opacityAtDraws_uniformCalls, opacityAfter_uniformCalls,
        opacityAtDraws_drawPrimitiveSets, opacityAfter_drawPrimitiveSets, List.nil_append]
      cases hup : uploadsOpacity loc i.imageLayer v.prevOpacity with
      | true =>
        simp only [if_true]
        rw [ih (nextVars loc i.imageLayer v) (some i.imageLayer.opacity)
          (Or.inl (by simp [nextVars, hup]))]
      | false =>
        obtain ⟨heq, hneg⟩ := prev_eq_of_not_uploaded h hloc hup
        have hcur : current = some i.imageLayer.opacity := by
          rcases hinv with hc | hc
          · rw [hc, heq]
          · exact absurd hc hneg
        simp only [Bool.false_eq_true, if_false]
        rw [ih (nextVars loc i.imageLayer v) current
          (Or.inl (by simp [nextVars, hup, hcur, heq])), hcur]

theorem uncoalescedLoopCalls_cons (loc : Locations) (primitives : List (Option DrawElements))
    (i : Layer) (rest : List Layer) (layersDrawn : Nat) :
    uncoalescedLoopCalls loc primitives (i :: rest) layersDrawn
      = if i.isDrawn then
          bindCalls loc i
            ++ [GLCall.glUniform1f .opacity loc.opacity i.imageLayer.opacity]
            ++ (if loc.uid ≥ 0 then [GLCall.glUniform1i .uid loc.uid i.imageLayer.uid] else [])
            ++ (if loc.order ≥ 0 then [GLCall.glUniform1i .order loc.order (layersDrawn : Int)]
                else [])
            ++ (drawPrimitiveSets primitives).calls
            ++ uncoalescedLoopCalls loc primitives rest (layersDrawn + 1)
        else uncoalescedLoopCalls loc primitives rest layersDrawn := rfl

/-- Uploading the opacity for every drawn layer puts the opacity of that
layer in effect at each of its draws. -/
theorem uncoalesced_opacityAtDraws (loc : Locations) (primitives : List (Option DrawElements))
    (layers : List Layer) (layersDrawn : Nat) (current : Option GLfloat) :
    opacityAtDraws current (uncoalescedLoopCalls loc primitives layers layersDrawn)
      = (drawnLayers layers).flatMap (fun i =>
          List.replicate primitives.reduceOption.length (some i.imageLayer.opacity)) := by
  induction layers generalizing layersDrawn current with
  | nil => rfl
  | cons i rest ih =>
    rw [drawnLayers_cons, uncoalescedLoopCalls_cons]
    cases h : i.isDrawn with
    | false =>
      simp only [Bool.false_eq_true, if_false]
      exact ih _ _
    | true =>
      simp only [if_true, List.flatMap_cons]
      have huid : ∀ c : Option GLfloat,
          opacityAtDraws c
              (if loc.uid ≥ 0 then [GLCall.glUniform1i .uid loc.uid i.imageLayer.uid] else [])
            = []
          ∧ opacityAfter c
              (if loc.uid ≥ 0 then [GLCall.glUniform1i .uid loc.uid i.imageLayer.uid] else [])
            = c := by
        intro c
        by_cases h2 : loc.uid ≥ 0 <;> simp [h2, opacityAtDraws, opacityAfter]
      have horder : ∀ c : Option GLfloat,
          opacityAtDraws c
              (if loc.order ≥ 0 then [GLCall.glUniform1i .order loc.order (layersDrawn : Int)]
                else [])
            = []
          ∧ opacityAfter c
              (if loc.order ≥ 0 then [GLCall.glUniform1i .order loc.order (layersDrawn : Int)]
                else [])
            = c := by
        intro c
        by_cases h3 : loc.order ≥ 0 <;> simp [h3, opacityAtDraws, opacityAfter]
      have hop : ∀ c : Option GLfloat,
          opacityAtDraws c [GLCall.glUniform1f .opacity loc.opacity i.imageLayer.opacity] = []
          ∧ opacityAfter c [GLCall.glUniform1f .opacity loc.opacity i.imageLayer.opacity]
              = some i.imageLayer.opacity := by
        intro c
        exact ⟨rfl, rfl⟩
      simp only [opacityAtDraws_append, opacityAfter_append, opacityAtDraws_bindCalls,
        opacityAfter_bindCalls, opacityAtDraws_drawPrimitiveSets,
        opacityAfter_drawPrimitiveSets, (huid _).1, (huid _).2, (horder _).1, (horder _).2,
        (hop _).1, (hop _).2, List.nil_append, List.append_nil, ih]

/-- Apart from the opacity uploads, the loop issues the calls that the loop
without the test of line 187 would issue. -/
theorem layerLoop_filter_eq_uncoalesced (e : GL2Extensions) (p : PerContextProgram)
    (loc : Locations) (primitives : List (Option DrawElements)) (layers : List Layer)
    (v : LoopVars) :
    (layerLoop (some e) (some p) loc primitives layers v).1.calls.filter
        (fun c => !c.writes .opacity)
      = (uncoalescedLoopCalls loc primitives layers v.layersDrawn).filter
          (fun c => !c.writes .opacity) := by
  induction layers generalizing v with
  | nil => rfl
  | cons i rest ih =>
    rw [uncoalescedLoopCalls_cons]
    cases h : i.isDrawn with
    | false =>
      rw [layerLoop_cons_skipped _ _ _ _ _ _ _ h]
      simp only [Bool.false_eq_true, if_false]
      exact ih v
    | true =>
      rw [layerLoop_cons_drawn _ _ _ _ _ _ _ h]
      simp only [if_true, List.filter_append, ih]
      have hn : (nextVars loc i.imageLayer v).layersDrawn = v.layersDrawn + 1 := rfl
      rw [hn]
      have hu : (uniformCalls loc i.imageLayer v).filter (fun c => !c.writes .opacity)
          = ([GLCall.glUniform1f .opacity loc.opacity i.imageLayer.opacity].filter
              (fun c => !c.writes .opacity)
            ++ (if loc.uid ≥ 0 then [GLCall.glUniform1i .uid loc.uid i.imageLayer.uid]
                else []).filter (fun c => !c.writes .opacity))
            ++ (if loc.order ≥ 0 then
                  [GLCall.glUniform1i .order loc.order (v.layersDrawn : Int)]
                else []).filter (fun c => !c.writes .opacity) := by
        unfold uniformCalls
        by_cases h1 : uploadsOpacity loc i.imageLayer v.prevOpacity = true <;>
          by_cases h2 : loc.uid ≥ 0 <;> by_cases h3 : loc.order ≥ 0 <;>
          simp [h1, h2, h3, GLCall.writes]
      rw [hu]
      simp only [List.append_assoc]

/-- C20. Opacity coalescing is sound: with a program bound and the opacity
uniform found, at every primitive draw of the layer loop the opacity most
recently uploaded is the opacity of the layer the draw belongs to (the draws
of the loop are, for each drawn layer in order, one per non-null primitive
set); this is the opacity in effect at every draw of the loop that uploads
the opacity for every drawn layer, from which the loop differs in its opacity
uploads only. -/
theorem C20_opacity_coalescing_sound (g : MPGeometry) (state : OsgState)
    (p : PerContextProgram) (layers : List Layer)
    (hglsl : g.supportsGLSL = true) (hpcp : state.lastAppliedProgramObject = some p)
    (hopacity : p.getUniformLocation .opacity ≥ 0) :
    opacityAtDraws none (layerLoop (getExt g state) (getPcp g state)
        (resolveLocations (getPcp g state)) g.primitives layers LoopVars.init).1.calls
      = (drawnLayers layers).flatMap (fun i =>
          List.replicate g.primitives.reduceOption.length (some i.imageLayer.opacity))
    ∧ opacityAtDraws none (layerLoop (getExt g state) (getPcp g state)
        (resolveLocations (getPcp g state)) g.primitives layers LoopVars.init).1.calls
      = opacityAtDraws none (uncoalescedLoopCalls (resolveLocations (getPcp g state))
          g.primitives layers 0)
    ∧ (layerLoop (getExt g state) (getPcp g state)
        (resolveLocations (getPcp g state)) g.primitives layers LoopVars.init).1.calls.filter
          (fun c => !c.writes .opacity)
      = (uncoalescedLoopCalls (resolveLocations (getPcp g state))
          g.primitives layers 0).filter (fun c => !c.writes .opacity) := by
  rw [getExt_of_glsl state hglsl, getPcp_of_glsl hglsl hpcp]
  have hl : (resolveLocations (some p)).opacity ≥ 0 := hopacity
  have h1 := layerLoop_opacityAtDraws ⟨state.contextID⟩ p (resolveLocations (some p))
    g.primitives layers LoopVars.init none hl (Or.inr rfl)
  refine ⟨h1, ?_, ?_⟩
  · rw [h1, uncoalesced_opacityAtDraws]
  · exact layerLoop_filter_eq_uncoalesced _ _ _ _ _ _

/-- C20, at a concrete input: five visible layers with the opacities
0.5, 0.5, 0.8, 0.8, 0.8 and one non-null primitive set; the opacity in effect
at the five draws is 0.5, 0.5, 0.8, 0.8, 0.8. -/
theorem C20_opacity_coalescing_sound_witness :
    opacityAtDraws none (layerLoop (getExt (sampleGeometry []) sampleState)
        (getPcp (sampleGeometry []) sampleState)
        (resolveLocations (getPcp (sampleGeometry []) sampleState))
        (sampleGeometry []).primitives fiveLayers LoopVars.init).1.calls
      = [some GLfloat.half, some GLfloat.half, some GLfloat.pointEight,
          some GLfloat.pointEight, some GLfloat.pointEight] :=
  (C20_opacity_coalescing_sound (sampleGeometry []) sampleState fullProgram fiveLayers
    rfl rfl (by decide)).1


/-! ## Validation only removes data -/

/-- The loop of `validate` either clears the list or keeps every set, the
sets still to visit each cut to a multiple of 3 indices. -/
theorem validateLoop_cases (numVerts : Nat) (visited rest : List DrawElements) :
    validateLoop numVerts visited rest = []
    ∨ validateLoop numVerts visited rest
        = visited ++ rest.map (fun de =>
            ⟨de.mode, de.indices.take (de.indices.length - de.indices.length % 3)⟩) := by
  induction rest generalizing visited with
  | nil =>
    right
    simp [validateLoop]
  | cons d rest ih =>
    unfold validateLoop
    split
    · exact Or.inl rfl
    · split
      · rcases ih (visited ++ [d.resize (d.indices.length - d.indices.length % 3)]) with h | h
        · exact Or.inl h
        · right
          rw [h]
          simp [DrawElements.resize]
      · rename_i hc
        split
        · exact Or.inl rfl
        · rcases ih (visited ++ [d]) with h | h
          · exact Or.inl h
          · right
            rw [h]
            have h0 : d.indices.length % 3 = 0 := not_not.1 hc
            simp [h0]

/-- C21. `validate` only removes data: the primitive-set list afterwards is
empty, or it is the original list with every set cut to its first
N - (N mod 3) indices; in the second case it has the same number of sets, in
the same order with the same modes, and the index list of each set is the
original index list cut to a length that is shorter by at most 2, so no index
is added, moved or rewritten.  The vertex count is only read: it is an
argument of `validate` and no part of what `validate` writes. -/
theorem C21_validate_only_removes (numVerts : Nat) (primitives : List DrawElements) :
    validate numVerts primitives = []
    ∨ (validate numVerts primitives
          = primitives.map (fun de =>
              ⟨de.mode, de.indices.take (de.indices.length - de.indices.length % 3)⟩)
        ∧ (validate numVerts primitives).length = primitives.length
        ∧ (validate numVerts primitives).map (fun de => de.mode)
            = primitives.map (fun de => de.mode)
        ∧ ∀ pair ∈ primitives.zip (validate numVerts primitives),
            pair.2.mode = pair.1.mode
            ∧ pair.2.indices = pair.1.indices.take pair.2.indices.length
            ∧ pair.2.indices.length ≤ pair.1.indices.length
            ∧ pair.1.indices.length ≤ pair.2.indices.length + 2) := by
  rcases validateLoop_cases numVerts [] primitives with h | h
  · exact Or.inl h
  · right
    have hv : validate numVerts primitives
        = primitives.map (fun de =>
            ⟨de.mode, de.indices.take (de.indices.length - de.indices.length % 3)⟩) := by
      unfold validate
      simpa using h
    refine ⟨hv, by rw [hv, List.length_map], ?_, ?_⟩
    · rw [hv, List.map_map]
      rfl
    · intro pair hpair
      rw [hv, List.zip_map_right] at hpair
      obtain ⟨q, hq, rfl⟩ := List.mem_map.1 hpair
      obtain ⟨a, b⟩ := q
      have hab : a = b := by
        clear hpair hv h
        induction primitives with
        | nil => exact absurd hq (List.not_mem_nil _)
        | cons x xs ihx =>
          rw [List.zip_cons_cons] at hq
          rcases List.mem_cons.1 hq with e | e
          · rw [Prod.mk.injEq] at e
            rw [e.1, e.2]
          · exact ihx e
      subst hab
      simp only [Prod.map, id, List.length_take]
      have hmin : min (a.indices.length - a.indices.length % 3) a.indices.length
          = a.indices.length - a.indices.length % 3 := by omega
      rw [hmin]
      refine ⟨trivial, rfl, by omega, ?_⟩
      have := Nat.mod_lt a.indices.length (by decide : 3 > 0)
      omega


end MPTerrainEngine
